import Mathlib

/-!
Verification of the C64 image-quantization pipeline of this repository
(`christmas/image_improved.py`, with the older `christmas/image.py` and
`newyear/image.py` variants where the claims cite them).

Conventions of the embedding:
* Python floats are idealized as real numbers (`ℝ`); pixel channels read
  from the image are integers (`ℤ`).
* A pixel is an RGB triple.  An image buffer is a flat row-major list of
  pixels, exactly as `list(img.getdata())` produces it.
* Python `float('inf')` is modelled by `⊤ : WithTop α`.
* Python dictionaries (insertion-ordered) are modelled as association
  lists to which new keys are appended at the end.
-/

/-- RGB triple of reals (a pixel while dithering, or a Lab triple). -/
abbrev R3 := ℝ × ℝ × ℝ

/-- RGB triple of integers (a pixel as stored in the image). -/
abbrev Z3 := ℤ × ℤ × ℤ

/-- Coercion of an integer pixel to a real pixel. -/
def castTriple (p : Z3) : R3 := ((p.1 : ℝ), (p.2.1 : ℝ), (p.2.2 : ℝ))

/-- Python `int(c)` on the (nonnegative) channel values produced by the
pipeline: truncation, which on nonnegative reals is the floor. -/
noncomputable def intTriple (p : R3) : Z3 := (⌊p.1⌋, ⌊p.2.1⌋, ⌊p.2.2⌋)

/-- The official C64 palette (VICE/Pepto values), `C64_PALETTE` of
`image_improved.py` (identical to `colors` of `image.py` and `C64_COLORS`
of `newyear/image.py`). -/
def C64_PALETTE : List Z3 :=
  [(0, 0, 0), (255, 255, 255), (136, 0, 0), (170, 255, 238),
   (204, 68, 204), (0, 204, 85), (0, 0, 170), (238, 238, 119),
   (221, 136, 85), (102, 68, 0), (255, 119, 119), (51, 51, 51),
   (119, 119, 119), (170, 255, 102), (0, 136, 255), (187, 187, 187)]

/-- The running-minimum selection loop shared by every `for`-loop of the
source that scans candidates keeping the one of least score under a strict
`<` test (`find_nearest_color`, the closest-pattern fallback, the head of
Python's stable sort).  State: the currently selected value `bv` and the
current least score `m` (initially `⊤`, Python's `float('inf')`). -/
def selLoop {β γ : Type} {α : Type} [LinearOrder α]
    (score : β → α) (val : β → γ) : List β → γ → WithTop α → γ
  | [], bv, _ => bv
  | x :: xs, bv, m =>
      if (score x : WithTop α) < m then selLoop score val xs (val x) (score x)
      else selLoop score val xs bv m

/-- The sRGB gamma linearization of one channel already scaled to `[0,1]`
(the three guarded expressions at the top of `rgb_to_lab`). -/
noncomputable def srgb_channel (v : ℝ) : ℝ :=
  if v > 0.04045 then ((v + 0.055) / 1.055) ^ (2.4 : ℝ) else v / 12.92

/-- The XYZ-to-Lab compression `f` (cube root above the 0.008856 threshold,
linear segment below), as written in `rgb_to_lab`. -/
noncomputable def labF (t : ℝ) : ℝ :=
  if t > 0.008856 then t ^ ((1 : ℝ) / 3) else 7.787 * t + 16 / 116

/-- The linear-RGB to XYZ row producing `x` in `rgb_to_lab`. -/
noncomputable def linX (p : R3) : ℝ :=
  srgb_channel (p.1 / 255) * 0.4124564 + srgb_channel (p.2.1 / 255) * 0.3575761 +
    srgb_channel (p.2.2 / 255) * 0.1804375

/-- The linear-RGB to XYZ row producing `y` in `rgb_to_lab`. -/
noncomputable def linY (p : R3) : ℝ :=
  srgb_channel (p.1 / 255) * 0.2126729 + srgb_channel (p.2.1 / 255) * 0.7151522 +
    srgb_channel (p.2.2 / 255) * 0.0721750

/-- The linear-RGB to XYZ row producing `z` in `rgb_to_lab`. -/
noncomputable def linZ (p : R3) : ℝ :=
  srgb_channel (p.1 / 255) * 0.0193339 + srgb_channel (p.2.1 / 255) * 0.1191920 +
    srgb_channel (p.2.2 / 255) * 0.9503041

/-- The function `rgb_to_lab` of `image_improved.py`: sRGB channels →
linear RGB → XYZ (D65-normalized) → CIE Lab. -/
noncomputable def rgb_to_lab (p : R3) : R3 :=
  let x := linX p / 0.95047
  let y := linY p / 1.00000
  let z := linZ p / 1.08883
  (116 * labF y - 16, 500 * (labF x - labF y), 200 * (labF y - labF z))

/-- The precomputed list `C64_PALETTE_LAB = [rgb_to_lab(c) for c in C64_PALETTE]`. -/
noncomputable def C64_PALETTE_LAB : List R3 :=
  C64_PALETTE.map (fun c => rgb_to_lab (castTriple c))

/-- The CIE76 distance computed for palette entry `j` in the `use_lab` branch
of `find_nearest_color` (a Euclidean distance in Lab space). -/
noncomputable def labDistTo (c : R3) (j : ℕ) : ℝ :=
  let lab := rgb_to_lab c
  let pl := C64_PALETTE_LAB.getD j (0, 0, 0)
  let dL := lab.1 - pl.1
  let da := lab.2.1 - pl.2.1
  let db := lab.2.2 - pl.2.2
  Real.sqrt (dL * dL + da * da + db * db)

/-- The squared RGB distance computed for palette entry `j` in the
`use_lab=False` branch of `find_nearest_color` (the code compares the
squared Euclidean distance directly, without the square root). -/
noncomputable def rgbDistTo (c : R3) (j : ℕ) : ℝ :=
  let pc := castTriple (C64_PALETTE.getD j (0, 0, 0))
  let dr := c.1 - pc.1
  let dg := c.2.1 - pc.2.1
  let db := c.2.2 - pc.2.2
  dr * dr + dg * dg + db * db

/-- The function `find_nearest_color` of `image_improved.py`: scan palette
indices `0..15` in order, keeping the first index of strictly smaller
distance under the active metric (`min_dist` starts at `float('inf')`,
`best_idx` at 0). -/
noncomputable def find_nearest_color (c : R3) (use_lab : Bool) : ℕ :=
  if use_lab then selLoop (labDistTo c) id (List.range 16) 0 ⊤
  else selLoop (rgbDistTo c) id (List.range 16) 0 ⊤

/-- The distance the code actually compares for palette entry `j` under the
active metric choice (Lab: CIE76 with its square root; RGB: the squared
Euclidean distance, exactly as the source compares it). -/
noncomputable def activeDist (c : R3) (use_lab : Bool) (j : ℕ) : ℝ :=
  if use_lab then labDistTo c j else rgbDistTo c j

/-- The Euclidean distance in the active color space (for the RGB metric the
square root of the compared quantity; minimizers coincide since the square
root is monotone). -/
noncomputable def euclDist (c : R3) (use_lab : Bool) (j : ℕ) : ℝ :=
  if use_lab then labDistTo c j else Real.sqrt (rgbDistTo c j)

/-- The clamp `max(0, min(255, v))` the ditherer applies to a neighbor
channel at the moment the error fraction is added. -/
def clampChan (v : ℝ) : ℝ := max 0 (min 255 v)

/-- One neighbor update of the ditherer: read pixel `i`, add `e * coef / 16`
per channel, clamp eagerly, store (`pixels[i][ch] = max(0, min(255,
pixels[i][ch] + error[ch] * coef / 16))`). -/
noncomputable def updAdd (b : List R3) (i : ℕ) (e : R3) (coef : ℝ) : List R3 :=
  let p := b.getD i (0, 0, 0)
  b.set i (clampChan (p.1 + e.1 * coef / 16), clampChan (p.2.1 + e.2.1 * coef / 16),
    clampChan (p.2.2 + e.2.2 * coef / 16))

/-- A neighbor-store modelled from the spec sentence for claim C4, which says
the clamp is applied lazily, when the receiving pixel is later processed:
under that reading the stored value is the unclamped `v + e * coef / 16`. -/
noncomputable def lazyStore (v e coef : ℝ) : ℝ := v + e * coef / 16

/-- The body of the double pixel loop of `apply_floyd_steinberg_dithering`
for pixel `(x, y)` of a `w × h` buffer: nearest palette color in Lab space,
error `old − new`, pixel replaced, then the 7/16, 3/16, 5/16, 1/16
fractions added (each eagerly clamped) to the in-bounds neighbors. -/
noncomputable def fsStep (w h : ℕ) (buf : List R3) (y x : ℕ) : List R3 :=
  let idx := y * w + x
  let old := buf.getD idx (0, 0, 0)
  let ci := find_nearest_color old true
  let np := castTriple (C64_PALETTE.getD ci (0, 0, 0))
  let err : R3 := (old.1 - np.1, old.2.1 - np.2.1, old.2.2 - np.2.2)
  let b0 := buf.set idx np
  let b1 := if x + 1 < w then updAdd b0 (idx + 1) err 7 else b0
  if y + 1 < h then
    let b2 := if 0 < x then updAdd b1 (idx + w - 1) err 3 else b1
    let b3 := updAdd b2 (idx + w) err 5
    if x + 1 < w then updAdd b3 (idx + w + 1) err 1 else b3
  else b1

/-- The function `apply_floyd_steinberg_dithering` of `image_improved.py` on
the flat row-major pixel list of a `w × h` image: pixels processed in raster
order (`y` outer, `x` inner). -/
noncomputable def apply_floyd_steinberg_dithering (w h : ℕ) (px : List R3) : List R3 :=
  (List.range h).foldl
    (fun b y => (List.range w).foldl (fun b2 x => fsStep w h b2 y x) b) px

/-- The spec's description of one dithered pixel (claim C5): the same
nearest-color/replace step, then one pass over the offset list
`[(+1,0,7/16), (−1,+1,3/16), (0,+1,5/16), (+1,+1,1/16)]`, adding each
fraction exactly when the neighbor lies inside the buffer bounds. -/
noncomputable def specStep (w h : ℕ) (buf : List R3) (y x : ℕ) : List R3 :=
  let idx := y * w + x
  let old := buf.getD idx (0, 0, 0)
  let ci := find_nearest_color old true
  let np := castTriple (C64_PALETTE.getD ci (0, 0, 0))
  let err : R3 := (old.1 - np.1, old.2.1 - np.2.1, old.2.2 - np.2.2)
  let b0 := buf.set idx np
  [((1 : ℤ), (0 : ℤ), (7 : ℝ)), (-1, 1, 3), (0, 1, 5), (1, 1, 1)].foldl
    (fun b off =>
      let nx := (x : ℤ) + off.1
      let ny := (y : ℤ) + off.2.1
      if 0 ≤ nx ∧ nx < (w : ℤ) ∧ 0 ≤ ny ∧ ny < (h : ℤ) then
        updAdd b (ny * w + nx).toNat err off.2.2
      else b) b0

/-- Floyd–Steinberg dithering as the spec sentence of claim C5 words it:
raster order, classic coefficients, bounds-checked neighbors. -/
noncomputable def ditherSpec (w h : ℕ) (px : List R3) : List R3 :=
  (List.range h).foldl
    (fun b y => (List.range w).foldl (fun b2 x => specStep w h b2 y x) b) px

/-- Dithering as the pipeline applies it to an integer image: lift to real
channels, run the error-diffusion pass, convert back with `int(c)`. -/
noncomputable def ditherImage (w h : ℕ) (px : List Z3) : List Z3 :=
  ((apply_floyd_steinberg_dithering w h (px.map castTriple)).map intTriple)

/-- The function `convert_to_c64_direct` of `image_improved.py`: every pixel
independently replaced by its nearest palette color (Lab metric, the
default of `find_nearest_color`). -/
noncomputable def convert_to_c64_direct (px : List Z3) : List Z3 :=
  px.map (fun p => C64_PALETTE.getD (find_nearest_color (castTriple p) true) (0, 0, 0))

/-- The luminance `0.299*r + 0.587*g + 0.114*b` computed per pixel in
`generate_c64_data`. -/
def luminance (p : Z3) : ℚ :=
  0.299 * (p.1 : ℚ) + 0.587 * (p.2.1 : ℚ) + 0.114 * (p.2.2 : ℚ)

/-- The foreground test of `generate_c64_data`: dark pixels (luminance below
the threshold) set the bit; with `invert`, light pixels (luminance at or
above the threshold) set it instead. -/
def pixelOn (p : Z3) (threshold : ℕ) (invert : Bool) : Prop :=
  if invert then (threshold : ℚ) ≤ luminance p else luminance p < (threshold : ℚ)

instance (p : Z3) (threshold : ℕ) (invert : Bool) :
    Decidable (pixelOn p threshold invert) := by
  unfold pixelOn; split <;> infer_instance

/-- Pixel `(x, y)` of the row-major image list, as `img.getpixel((x, y))`. -/
def getPix (w : ℕ) (px : List Z3) (x y : ℕ) : Z3 := px.getD (y * w + x) (0, 0, 0)

/-- One row byte of an 8×8 cell: bit `128 >> px` is set when the pixel is
inside the image (`x < width and y < height`) and the foreground test
holds.  This is the inner `for px in range(8)` loop building `byte_val`. -/
def cellByte (w h : ℕ) (px : List Z3) (threshold : ℕ) (invert : Bool)
    (cx cy py : ℕ) : ℕ :=
  (List.range 8).foldl
    (fun bv i =>
      let x := cx * 8 + i
      let y := cy * 8 + py
      if x < w ∧ y < h ∧ pixelOn (getPix w px x y) threshold invert then
        bv ||| (128 >>> i)
      else bv) 0

/-- The 8-byte bitmap `cell_bytes` of one 8×8 cell (rows `py = 0..7`). -/
def cellBytes (w h : ℕ) (px : List Z3) (threshold : ℕ) (invert : Bool)
    (cx cy : ℕ) : List ℕ :=
  (List.range 8).map (cellByte w h px threshold invert cx cy)

/-- The insertion-ordered occurrence-count dictionary update
`cell_colors[color_idx] = cell_colors.get(color_idx, 0) + 1`. -/
def bumpCount : List (ℕ × ℕ) → ℕ → List (ℕ × ℕ)
  | [], k => [(k, 1)]
  | (a, c) :: rest, k =>
      if a = k then (a, c + 1) :: rest else (a, c) :: bumpCount rest k

/-- The dictionary `cell_colors` of one 8×8 cell: for every in-bounds pixel
of the cell, in scan order (`py` outer, `px` inner), count the occurrences
of its nearest palette index under the RGB metric
(`find_nearest_color(pixel, use_lab=False)`). -/
noncomputable def cellColors (w h : ℕ) (px : List Z3) (cx cy : ℕ) : List (ℕ × ℕ) :=
  (List.range 8).foldl
    (fun acc py =>
      (List.range 8).foldl
        (fun acc2 i =>
          let x := cx * 8 + i
          let y := cy * 8 + py
          if x < w ∧ y < h then
            bumpCount acc2 (find_nearest_color (castTriple (getPix w px x y)) false)
          else acc2) acc) []

/-- The Python sort key `lambda x: (x[0] == 0, -x[1])` of the dominant-color
selection, valued in the lexicographic order on `ℕ × ℤ` (`False < True`
becomes `0 < 1`). -/
def colorKey (e : ℕ × ℕ) : Lex (ℕ × ℤ) :=
  toLex ((if e.1 = 0 then 1 else 0), -(e.2 : ℤ))

/-- One step of a stable ascending insertion: the new element goes after
every already-placed element of less-or-equal key (equal keys keep their
original order, as Python's stable `sorted` does). -/
def insSorted (x : ℕ × ℕ) : List (ℕ × ℕ) → List (ℕ × ℕ)
  | [] => [x]
  | y :: ys => if colorKey y ≤ colorKey x then y :: insSorted x ys else x :: y :: ys

/-- Stable sort by the Python key `(x[0] == 0, -x[1])`: elements inserted in
original order, each after its equals. -/
def stableSort (l : List (ℕ × ℕ)) : List (ℕ × ℕ) := l.foldl (fun acc x => insSorted x acc) []

/-- The dominant-color selection of `generate_c64_data`:
`sorted(cell_colors.items(), key=lambda x: (x[0] == 0, -x[1]))[0][0]`, or 0
when the cell saw no pixel. -/
def dominant_color (cs : List (ℕ × ℕ)) : ℕ :=
  match stableSort cs with
  | [] => 0
  | e :: _ => e.1

/-- The tile-color policy of claim C10, stated independently: keep the
counts of the non-black indices (in first-encounter order); if none remain
the tile is black, otherwise take the first index attaining the maximal
count (the running-maximum scan with a strict test realizes the
first-encountered tie-break). -/
def policyColor (cs : List (ℕ × ℕ)) : ℕ :=
  if cs.filter (fun e => decide (e.1 ≠ 0)) = [] then 0
  else selLoop (fun e : ℕ × ℕ => -(e.2 : ℤ)) Prod.fst (cs.filter (fun e => decide (e.1 ≠ 0))) 0 ⊤

/-- Sum over the 8 rows of the absolute byte difference, the quantity
`sum(abs(a - b) for a, b in zip(pattern, existing_pattern))`. -/
def patDiff (p q : List ℕ) : ℕ :=
  ((p.zip q).map (fun ab => (ab.1 - ab.2) + (ab.2 - ab.1))).sum

/-- The closest-pattern fallback of `generate_c64_data` once the table is
full: scan `charmap.items()` in insertion order, keep the index of the
first entry of strictly smaller difference (`min_diff` starts at
`float('inf')`, `best_match` at 0). -/
def closestPattern (p : List ℕ) (entries : List (List ℕ × ℕ)) : ℕ :=
  selLoop (fun e : List ℕ × ℕ => patDiff p e.1) Prod.snd entries 0 ⊤

/-- First-match association-list lookup, the `pattern in charmap` /
`charmap[pattern]` pair on the insertion-ordered dictionary. -/
def lookupPat : List (List ℕ × ℕ) → List ℕ → Option ℕ
  | [], _ => none
  | (q, i) :: rest, p => if q = p then some i else lookupPat rest p

/-- The interning state of `generate_c64_data`: the dictionary `charmap`
(pattern → index, insertion-ordered), the list `char_data`, the counter
`char_counter`, and the accumulated `screen_data` / `color_data`. -/
structure GenState where
  charmap : List (List ℕ × ℕ)
  charData : List (List ℕ)
  counter : ℕ
  screen : List ℕ
  color : List ℕ

/-- The pattern-interning step of `generate_c64_data`: reuse the index of a
known pattern; insert at the next index while fewer than 256 entries exist;
otherwise fall back to the closest existing pattern's index. -/
def internPattern (st : GenState) (pat : List ℕ) : GenState × ℕ :=
  match lookupPat st.charmap pat with
  | some i => (st, i)
  | none =>
      if st.counter < 256 then
        ({ st with charmap := st.charmap ++ [(pat, st.counter)],
                   charData := st.charData ++ [pat],
                   counter := st.counter + 1 }, st.counter)
      else (st, closestPattern pat st.charmap)

/-- The body of the cell loop of `generate_c64_data` for cell
`(cell_x, cell_y) = (cx, cy)`: build the bitmap and the color counts,
intern the bitmap, append the resolved index to `screen_data` and the
dominant color to `color_data`. -/
noncomputable def processCell (w h : ℕ) (px : List Z3) (threshold : ℕ) (invert : Bool)
    (st : GenState) (cy cx : ℕ) : GenState :=
  let pat := cellBytes w h px threshold invert cx cy
  let cs := cellColors w h px cx cy
  let r := internPattern st pat
  { r.1 with screen := r.1.screen ++ [r.2],
             color := r.1.color ++ [dominant_color cs] }

/-- The function `generate_c64_data` of `image_improved.py` on a `w × h`
image: dither (or directly quantize) the image, then walk the 25×40 cell
grid in row-major order; returns
`(screen_data, char_data, color_data, img)`. -/
noncomputable def generate_c64_data (w h : ℕ) (px : List Z3) (use_dithering : Bool)
    (threshold : ℕ) (invert : Bool) : List ℕ × List (List ℕ) × List ℕ × List Z3 :=
  let img := if use_dithering then ditherImage w h px else convert_to_c64_direct px
  let st :=
    (List.range 25).foldl
      (fun s cy =>
        (List.range 40).foldl (fun s2 cx => processCell w h img threshold invert s2 cy cx) s)
      ⟨[], [], 0, [], []⟩
  (st.screen, st.charData, st.color, img)

/-- The character-bitmap serialization of `save_c64_headers`: flatten
`char_data`, append zeros while shorter than 2048, truncate to 2048. -/
def save_char_bytes (char_data : List (List ℕ)) : List ℕ :=
  (char_data.flatten ++ List.replicate (2048 - char_data.flatten.length) 0).take 2048

/-- One interning step of the module-level loop of the older
`christmas/image.py` (the `maxcolor` dictionary, whose keys are the
comma-joined byte strings `sv`, modelled by the byte lists themselves):
a known pattern's index is reused; an unknown pattern is inserted while
`len(maxcolor.keys()) <= 256`; only past that does the closest-pattern
fallback run.  Returns the new table, the new counter and the emitted
screen index. -/
def imagePyStep (tbl : List (List ℕ × ℕ)) (cnt : ℕ) (p : List ℕ) :
    (List (List ℕ × ℕ)) × ℕ × ℕ :=
  match lookupPat tbl p with
  | some i => (tbl, cnt, i)
  | none =>
      if tbl.length ≤ 256 then (tbl ++ [(p, cnt)], cnt + 1, cnt)
      else (tbl, cnt, closestPattern p tbl)

/-- Palette entry `k` as a real triple (the form in which the ditherer and
the Lab tables consume it). -/
noncomputable def palR3 (k : ℕ) : R3 := castTriple (C64_PALETTE.getD k (0, 0, 0))

/-- A channel triple whose components all lie in the byte range `[0, 255]`. -/
def pixInRange (p : R3) : Prop :=
  0 ≤ p.1 ∧ p.1 ≤ 255 ∧ 0 ≤ p.2.1 ∧ p.2.1 ≤ 255 ∧ 0 ≤ p.2.2 ∧ p.2.2 ≤ 255

/-- A solid black 320×200 image (64000 row-major pixels). -/
def blackImg : List Z3 := List.replicate 64000 (0, 0, 0)

/-- A solid white 320×200 image (64000 row-major pixels). -/
def whiteImg : List Z3 := List.replicate 64000 (255, 255, 255)

/-- A full pattern table of 256 pairwise distinct 8-byte patterns
(`[n, 0, ..., 0]` at index `n`), used to exercise the interners at capacity. -/
def fullTable : List (List ℕ × ℕ) :=
  (List.range 256).map (fun n => ([n, 0, 0, 0, 0, 0, 0, 0], n))

/-- An 8-byte pattern distinct from every entry of `fullTable`. -/
def freshPat : List ℕ := [0, 1, 0, 0, 0, 0, 0, 0]

/-! ## Generic facts about the running-minimum scan -/

theorem selLoop_no_update {β γ α : Type} [LinearOrder α] (score : β → α) (val : β → γ)
    (l : List β) (bv : γ) (m : WithTop α)
    (h : ∀ x ∈ l, ¬ ((score x : WithTop α) < m)) :
    selLoop score val l bv m = bv := by
  induction l generalizing bv m with
  | nil => rfl
  | cons x xs ih =>
      rw [selLoop, if_neg (h x (by simp))]
      exact ih bv m fun y hy => h y (by simp [hy])


theorem selLoop_firstmin {β γ α : Type} [LinearOrder α] (score : β → α) (val : β → γ)
    (pre post : List β) (b : β) (bv : γ) (m : WithTop α)
    (hbm : (score b : WithTop α) < m)
    (hpre : ∀ x ∈ pre, score b < score x)
    (hpost : ∀ x ∈ post, ¬ (score x < score b)) :
    selLoop score val (pre ++ b :: post) bv m = val b := by
  induction pre generalizing bv m with
  | nil =>
      rw [List.nil_append, selLoop, if_pos hbm]
      refine selLoop_no_update score val post (val b) (score b) ?_
      intro x hx hc
      exact hpost x hx (by exact_mod_cast hc)
  | cons p pre ih =>
      rw [List.cons_append, selLoop]
      by_cases hp : (score p : WithTop α) < m
      · rw [if_pos hp]
        exact ih (val p) (score p) (by exact_mod_cast hpre p (by simp))
          (fun x hx => hpre x (List.mem_cons_of_mem _ hx))
      · rw [if_neg hp]
        exact ih bv m hbm (fun x hx => hpre x (List.mem_cons_of_mem _ hx))

theorem exists_firstmin {β α : Type} [LinearOrder α] (score : β → α)
    (l : List β) (hl : l ≠ []) :
    ∃ pre b post, l = pre ++ b :: post ∧ (∀ x ∈ l, score b ≤ score x) ∧
      ∀ x ∈ pre, score b < score x := by
  induction l with
  | nil => exact absurd rfl hl
  | cons x xs ih =>
      rcases eq_or_ne xs [] with rfl | hne
      · exact ⟨[], x, [], by simp, by simp, by simp⟩
      · obtain ⟨pre, b, post, hdec, hmin, hstrict⟩ := ih hne
        by_cases hxb : score x ≤ score b
        · refine ⟨[], x, xs, by simp, ?_, by simp⟩
          intro y hy
          rcases List.mem_cons.mp hy with rfl | hy
          · exact le_refl _
          · exact le_trans hxb (hmin y hy)
        · refine ⟨x :: pre, b, post, by simp [hdec], ?_, ?_⟩
          · intro y hy
            rcases List.mem_cons.mp hy with rfl | hy
            · exact le_of_lt (lt_of_not_le hxb)
            · exact hmin y hy
          · intro y hy
            rcases List.mem_cons.mp hy with rfl | hy
            · exact lt_of_not_le hxb
            · exact hstrict y hy

theorem selLoop_top_spec {β γ α : Type} [LinearOrder α] (score : β → α) (val : β → γ)
    (l : List β) (bv : γ) (hl : l ≠ []) :
    ∃ pre b post, l = pre ++ b :: post ∧ selLoop score val l bv ⊤ = val b ∧
      (∀ x ∈ l, score b ≤ score x) ∧ ∀ x ∈ pre, score b < score x := by
  obtain ⟨pre, b, post, hdec, hmin, hstrict⟩ := exists_firstmin score l hl
  refine ⟨pre, b, post, hdec, ?_, hmin, hstrict⟩
  rw [hdec]
  exact selLoop_firstmin score val pre post b bv ⊤ (WithTop.coe_lt_top _) hstrict
    fun x hx => not_lt_of_le (hmin x (by rw [hdec]; exact List.mem_append_right _ (List.mem_cons_of_mem _ hx)))

theorem range_decomp (n : ℕ) (pre post : List ℕ) (b : ℕ)
    (h : List.range n = pre ++ b :: post) :
    b = pre.length ∧ pre = List.range b ∧ b < n := by
  have hlen : pre.length < n := by
    have := congrArg List.length h
    simp at this; omega
  have h1 : (List.range n)[pre.length]? = some pre.length := by
    simp [List.getElem?_range hlen]
  rw [h, List.getElem?_append_right (Nat.le_refl pre.length)] at h1
  simp at h1
  have hpre : pre = List.range pre.length := by
    have ht : (List.range n).take pre.length = pre := by
      rw [h]; exact List.take_left pre (b :: post)
    rw [List.take_range] at ht
    have h2 : min pre.length n = pre.length := by omega
    rw [h2] at ht
    exact ht.symm
  refine ⟨h1, ?_, by omega⟩
  rw [h1]; exact hpre

theorem selRange16_spec (d : ℕ → ℝ) :
    selLoop d id (List.range 16) 0 ⊤ < 16 ∧
      (∀ j < 16, d (selLoop d id (List.range 16) 0 ⊤) ≤ d j) ∧
      ∀ j < selLoop d id (List.range 16) 0 ⊤, d (selLoop d id (List.range 16) 0 ⊤) < d j := by
  obtain ⟨pre, b, post, hdec, hval, hmin, hstrict⟩ :=
    selLoop_top_spec d id (List.range 16) 0 (by simp)
  obtain ⟨hb, hpre, hb16⟩ := range_decomp 16 pre post b hdec
  have hval2 : selLoop d id (List.range 16) 0 ⊤ = b := by simpa using hval
  rw [hval2]
  exact ⟨hb16, fun j hj => hmin j (List.mem_range.mpr hj),
    fun j hj => hstrict j (by rw [hpre]; exact List.mem_range.mpr hj)⟩

theorem selRange16_eq_of_zero (d : ℕ → ℝ) (k : ℕ) (hk : k < 16) (hdk : d k = 0)
    (hnn : ∀ j, 0 ≤ d j) (hpre : ∀ j < k, 0 < d j) :
    selLoop d id (List.range 16) 0 ⊤ = k := by
  obtain ⟨hlt, hmin, hstrict⟩ := selRange16_spec d
  set r := selLoop d id (List.range 16) 0 ⊤ with hr
  have hdr : d r = 0 := le_antisymm (hdk ▸ hmin k hk) (hnn r)
  rcases lt_trichotomy r k with hlt2 | heq | hgt
  · exact absurd (hdr ▸ hpre r hlt2) (lt_irrefl 0)
  · exact heq
  · exact absurd (hdr ▸ hstrict k hgt) (by rw [hdk]; exact lt_irrefl 0)

/-! ## Claim C2: the Color Matcher -/

theorem find_nearest_spec_active (c : R3) (m : Bool) :
    find_nearest_color c m < 16 ∧
      (∀ j < 16, activeDist c m (find_nearest_color c m) ≤ activeDist c m j) ∧
      ∀ j < find_nearest_color c m, activeDist c m (find_nearest_color c m) < activeDist c m j := by
  cases m with
  | false =>
      simpa only [find_nearest_color, activeDist, Bool.false_eq_true, if_false] using
        selRange16_spec (rgbDistTo c)
  | true =>
      simpa only [find_nearest_color, activeDist, if_true] using
        selRange16_spec (labDistTo c)

/-- Claim C2 (confirmed).  For every RGB triple and both metric choices
(`use_lab` on: Euclidean distance in Lab after the sRGB→Lab transform;
`use_lab` off: Euclidean RGB distance), `find_nearest_color` returns an
index in `[0, 15]` whose palette entry is no farther from the input, under
the active metric, than any other palette entry — both for the quantity the
code compares (`activeDist`) and for the Euclidean distance (`euclDist`) —
and on ties the first palette entry in scan order `0..15` wins: every index
smaller than the returned one is at strictly larger distance. -/
theorem claim_C2_find_nearest_color (c : R3) (useLab : Bool) :
    find_nearest_color c useLab < 16 ∧
      (∀ j < 16, activeDist c useLab (find_nearest_color c useLab) ≤ activeDist c useLab j) ∧
      (∀ j < 16, euclDist c useLab (find_nearest_color c useLab) ≤ euclDist c useLab j) ∧
      ∀ j < find_nearest_color c useLab,
        activeDist c useLab (find_nearest_color c useLab) < activeDist c useLab j := by
  obtain ⟨h16, hmin, htie⟩ := find_nearest_spec_active c useLab
  refine ⟨h16, hmin, ?_, htie⟩
  intro j hj
  cases useLab with
  | false =>
      simp only [euclDist, Bool.false_eq_true, if_false]
      exact Real.sqrt_le_sqrt (by simpa [activeDist] using hmin j hj)
  | true =>
      simp only [euclDist, if_true]
      simpa [activeDist] using hmin j hj

/-! ## Claim C6: the full-table closest-pattern fallback -/

/-- Claim C6 (confirmed).  When the pattern table is full and an unseen
pattern `p` arrives, the index `generate_c64_data` falls back to
(`closestPattern p entries`, scanning `charmap.items()` in insertion order)
is the index stored with an entry `b` that truly minimizes the total
absolute byte-wise difference `patDiff` against `p` over the whole table,
and every entry inserted before `b` has strictly larger difference — so
ties go to the earliest-inserted pattern. -/
theorem claim_C6_closest_pattern (p : List ℕ) (entries : List (List ℕ × ℕ))
    (hne : entries ≠ []) :
    ∃ pre b post, entries = pre ++ b :: post ∧
      closestPattern p entries = b.2 ∧
      (∀ x ∈ entries, patDiff p b.1 ≤ patDiff p x.1) ∧
      ∀ x ∈ pre, patDiff p b.1 < patDiff p x.1 :=
  selLoop_top_spec (fun e : List ℕ × ℕ => patDiff p e.1) Prod.snd entries 0 hne

/-- Witness for C6 at a concrete two-entry table and a concrete pattern. -/
theorem claim_C6_closest_pattern_witness :
    ([(List.replicate 8 0, 0), (List.replicate 8 255, 1)] : List (List ℕ × ℕ)) ≠ [] ∧
      ∃ pre b post,
        ([(List.replicate 8 0, 0), (List.replicate 8 255, 1)] : List (List ℕ × ℕ)) =
            pre ++ b :: post ∧
          closestPattern (List.replicate 8 250)
              [(List.replicate 8 0, 0), (List.replicate 8 255, 1)] = b.2 ∧
          (∀ x ∈ ([(List.replicate 8 0, 0), (List.replicate 8 255, 1)] : List (List ℕ × ℕ)),
            patDiff (List.replicate 8 250) b.1 ≤ patDiff (List.replicate 8 250) x.1) ∧
          ∀ x ∈ pre, patDiff (List.replicate 8 250) b.1 < patDiff (List.replicate 8 250) x.1 :=
  ⟨by simp,
    claim_C6_closest_pattern (List.replicate 8 250)
      [(List.replicate 8 0, 0), (List.replicate 8 255, 1)] (by simp)⟩

/-! ## Claim C8: fixed output lengths -/

theorem foldl_count {σ ι : Type} (f : σ → ℕ) (g : σ → ι → σ) (k : ℕ)
    (hg : ∀ s i, f (g s i) = f s + k) :
    ∀ (l : List ι) (s : σ), f (l.foldl g s) = f s + k * l.length := by
  intro l
  induction l with
  | nil => simp
  | cons x xs ih =>
      intro s
      rw [List.foldl_cons, ih, hg, List.length_cons]
      ring

theorem internPattern_screen (st : GenState) (pat : List ℕ) :
    (internPattern st pat).1.screen = st.screen := by
  unfold internPattern
  rcases lookupPat st.charmap pat with _ | i
  · simp; split <;> rfl
  · simp

theorem internPattern_color (st : GenState) (pat : List ℕ) :
    (internPattern st pat).1.color = st.color := by
  unfold internPattern
  rcases lookupPat st.charmap pat with _ | i
  · simp; split <;> rfl
  · simp

theorem processCell_screen_len (w h : ℕ) (px : List Z3) (t : ℕ) (inv : Bool)
    (st : GenState) (cy cx : ℕ) :
    (processCell w h px t inv st cy cx).screen.length = st.screen.length + 1 := by
  unfold processCell
  simp [internPattern_screen]

theorem processCell_color_len (w h : ℕ) (px : List Z3) (t : ℕ) (inv : Bool)
    (st : GenState) (cy cx : ℕ) :
    (processCell w h px t inv st cy cx).color.length = st.color.length + 1 := by
  unfold processCell
  simp [internPattern_color]

theorem generate_screen_len (w h : ℕ) (px : List Z3) (d : Bool) (t : ℕ) (inv : Bool) :
    (generate_c64_data w h px d t inv).1.length = 1000 := by
  simp only [generate_c64_data]
  generalize (if d = true then ditherImage w h px else convert_to_c64_direct px) = img
  have h1 : ∀ (s : GenState) (cy : ℕ),
      ((List.range 40).foldl (fun s2 cx => processCell w h img t inv s2 cy cx) s).screen.length
        = s.screen.length + 40 := by
    intro s cy
    have := foldl_count (fun s2 : GenState => s2.screen.length)
      (fun s2 cx => processCell w h img t inv s2 cy cx) 1
      (fun s2 cx => processCell_screen_len w h img t inv s2 cy cx) (List.range 40) s
    simpa using this
  have h2 := foldl_count (fun s : GenState => s.screen.length)
    (fun s cy => (List.range 40).foldl (fun s2 cx => processCell w h img t inv s2 cy cx) s) 40
    h1 (List.range 25) ⟨[], [], 0, [], []⟩
  simpa using h2

theorem generate_color_len (w h : ℕ) (px : List Z3) (d : Bool) (t : ℕ) (inv : Bool) :
    (generate_c64_data w h px d t inv).2.2.1.length = 1000 := by
  simp only [generate_c64_data]
  generalize (if d = true then ditherImage w h px else convert_to_c64_direct px) = img
  have h1 : ∀ (s : GenState) (cy : ℕ),
      ((List.range 40).foldl (fun s2 cx => processCell w h img t inv s2 cy cx) s).color.length
        = s.color.length + 40 := by
    intro s cy
    have := foldl_count (fun s2 : GenState => s2.color.length)
      (fun s2 cx => processCell w h img t inv s2 cy cx) 1
      (fun s2 cx => processCell_color_len w h img t inv s2 cy cx) (List.range 40) s
    simpa using this
  have h2 := foldl_count (fun s : GenState => s.color.length)
    (fun s cy => (List.range 40).foldl (fun s2 cx => processCell w h img t inv s2 cy cx) s) 40
    h1 (List.range 25) ⟨[], [], 0, [], []⟩
  simpa using h2

/-- Claim C8 (confirmed).  For every input image (any size, any content) and
any configuration, the screen map and the color map have exactly 1000
entries (40×25), and the serialized character-bitmap table has exactly 2048
byte entries, zero-padded beyond the bytes of the patterns actually found. -/
theorem claim_C8_output_lengths (w h : ℕ) (px : List Z3) (d : Bool) (t : ℕ) (inv : Bool) :
    (generate_c64_data w h px d t inv).1.length = 1000 ∧
      (generate_c64_data w h px d t inv).2.2.1.length = 1000 ∧
      (save_char_bytes (generate_c64_data w h px d t inv).2.1).length = 2048 ∧
      ∀ i, (generate_c64_data w h px d t inv).2.1.flatten.length ≤ i → i < 2048 →
        (save_char_bytes (generate_c64_data w h px d t inv).2.1).getD i 0 = 0 := by
  refine ⟨generate_screen_len w h px d t inv, generate_color_len w h px d t inv, ?_, ?_⟩
  · unfold save_char_bytes
    simp
    omega
  · intro i hiL hi2048
    unfold save_char_bytes
    rw [List.getD_eq_getElem?_getD, List.getElem?_take, if_pos hi2048,
      List.getElem?_append_right hiL, List.getElem?_replicate]
    rw [if_pos (by omega)]
    rfl

/-! ## Claim C5: the Floyd-Steinberg propagation pattern -/

theorem foldl_congr_mem {σ ι : Type} (f g : σ → ι → σ) (l : List ι)
    (h : ∀ s, ∀ i ∈ l, f s i = g s i) : ∀ s, l.foldl f s = l.foldl g s := by
  induction l with
  | nil => intro s; rfl
  | cons x xs ih =>
      intro s
      rw [List.foldl_cons, List.foldl_cons, h s x (by simp)]
      exact ih (fun s2 i hi => h s2 i (List.mem_cons_of_mem _ hi)) _

theorem fsStep_eq_specStep (w h : ℕ) (buf : List R3) (y x : ℕ)
    (hx : x < w) (hy : y < h) :
    fsStep w h buf y x = specStep w h buf y x := by
  simp only [fsStep, specStep, List.foldl_cons, List.foldl_nil]
  have c1 : (0 ≤ (x:ℤ) + 1 ∧ (x:ℤ) + 1 < (w:ℤ) ∧ 0 ≤ (y:ℤ) + 0 ∧ (y:ℤ) + 0 < (h:ℤ)) ↔
      x + 1 < w := by
    constructor
    · rintro ⟨-, h2, -, -⟩; exact_mod_cast h2
    · intro h2
      exact ⟨by positivity, by exact_mod_cast h2, by positivity, by exact_mod_cast hy⟩
  have c2 : (0 ≤ (x:ℤ) + -1 ∧ (x:ℤ) + -1 < (w:ℤ) ∧ 0 ≤ (y:ℤ) + 1 ∧ (y:ℤ) + 1 < (h:ℤ)) ↔
      (0 < x ∧ y + 1 < h) := by
    constructor
    · rintro ⟨h1, -, -, h4⟩; exact ⟨by omega, by exact_mod_cast h4⟩
    · rintro ⟨h1, h4⟩
      refine ⟨by omega, by omega, by positivity, by exact_mod_cast h4⟩
  have c3 : (0 ≤ (x:ℤ) + 0 ∧ (x:ℤ) + 0 < (w:ℤ) ∧ 0 ≤ (y:ℤ) + 1 ∧ (y:ℤ) + 1 < (h:ℤ)) ↔
      y + 1 < h := by
    constructor
    · rintro ⟨-, -, -, h4⟩; exact_mod_cast h4
    · intro h4
      exact ⟨by positivity, by omega, by positivity, by exact_mod_cast h4⟩
  have c4 : (0 ≤ (x:ℤ) + 1 ∧ (x:ℤ) + 1 < (w:ℤ) ∧ 0 ≤ (y:ℤ) + 1 ∧ (y:ℤ) + 1 < (h:ℤ)) ↔
      (x + 1 < w ∧ y + 1 < h) := by
    constructor
    · rintro ⟨-, h2, -, h4⟩; exact ⟨by exact_mod_cast h2, by exact_mod_cast h4⟩
    · rintro ⟨h2, h4⟩
      exact ⟨by positivity, by exact_mod_cast h2, by positivity, by exact_mod_cast h4⟩
  have i1 : (((y:ℤ) + 0) * (w:ℤ) + ((x:ℤ) + 1)).toNat = y * w + x + 1 := by
    have e : ((y:ℤ) + 0) * (w:ℤ) + ((x:ℤ) + 1) = ((y * w + x + 1 : ℕ) : ℤ) := by
      push_cast; ring
    rw [e, Int.toNat_natCast]
  have i2 : 0 < x → (((y:ℤ) + 1) * (w:ℤ) + ((x:ℤ) + -1)).toNat = y * w + x + w - 1 := by
    intro h0x
    have hge : 1 ≤ y * w + x + w := le_trans h0x (by
      have := Nat.le_add_left x (y * w)
      have := Nat.le_add_right (y * w + x) w
      omega)
    have e : ((y:ℤ) + 1) * (w:ℤ) + ((x:ℤ) + -1) = ((y * w + x + w - 1 : ℕ) : ℤ) := by
      push_cast [hge]; ring
    rw [e, Int.toNat_natCast]
  have i3 : (((y:ℤ) + 1) * (w:ℤ) + ((x:ℤ) + 0)).toNat = y * w + x + w := by
    have e : ((y:ℤ) + 1) * (w:ℤ) + ((x:ℤ) + 0) = ((y * w + x + w : ℕ) : ℤ) := by
      push_cast; ring
    rw [e, Int.toNat_natCast]
  have i4 : (((y:ℤ) + 1) * (w:ℤ) + ((x:ℤ) + 1)).toNat = y * w + x + w + 1 := by
    have e : ((y:ℤ) + 1) * (w:ℤ) + ((x:ℤ) + 1) = ((y * w + x + w + 1 : ℕ) : ℤ) := by
      push_cast; ring
    rw [e, Int.toNat_natCast]
  by_cases hyh : y + 1 < h
  · by_cases h0x : 0 < x
    · simp only [c1, c2, c3, c4, i1, i2 h0x, i3, i4, if_pos hyh, if_pos h0x, hyh, h0x,
        and_true, true_and, if_true]
    · simp only [c1, c2, c3, c4, i1, i3, i4, if_pos hyh, if_neg h0x, hyh, h0x,
        and_true, true_and, false_and, if_false, if_true]
  · by_cases h0x : 0 < x
    · simp only [c1, c2, c3, c4, i1, i2 h0x, i3, i4, if_neg hyh, hyh,
        and_false, false_and, and_true, if_false]
    · simp only [c1, c2, c3, c4, i1, i3, i4, if_neg hyh, hyh,
        and_false, false_and, if_false]

/-- Claim C5 (confirmed, by refinement).  Dithered-mode processing visits
pixels in row-major raster order and, for each pixel, replaces it by its
nearest palette color and propagates the signed quantization error with
coefficients 7/16 (right), 3/16 (below-left), 5/16 (below), 1/16
(below-right), each applied exactly when the neighbor lies inside the
buffer: the code's `apply_floyd_steinberg_dithering` coincides with
`ditherSpec`, the step written directly from the spec's offset list with
bounds checks. -/
theorem claim_C5_dither_refines_spec (w h : ℕ) (px : List R3) :
    apply_floyd_steinberg_dithering w h px = ditherSpec w h px := by
  unfold apply_floyd_steinberg_dithering ditherSpec
  refine foldl_congr_mem _ _ (List.range h) ?_ px
  intro b y hy
  refine foldl_congr_mem _ _ (List.range w) ?_ b
  intro b2 x hx
  exact fsStep_eq_specStep w h b2 y x (List.mem_range.mp hx) (List.mem_range.mp hy)

/-! ## Claim C4: where the clamp happens -/

theorem clampChan_bounds (v : ℝ) : 0 ≤ clampChan v ∧ clampChan v ≤ 255 :=
  ⟨le_max_left 0 _, max_le (by norm_num) (min_le_left 255 v)⟩

theorem palette_entry_bounds (k : ℕ) :
    0 ≤ (C64_PALETTE.getD k (0, 0, 0)).1 ∧ (C64_PALETTE.getD k (0, 0, 0)).1 ≤ 255 ∧
      0 ≤ (C64_PALETTE.getD k (0, 0, 0)).2.1 ∧ (C64_PALETTE.getD k (0, 0, 0)).2.1 ≤ 255 ∧
      0 ≤ (C64_PALETTE.getD k (0, 0, 0)).2.2 ∧ (C64_PALETTE.getD k (0, 0, 0)).2.2 ≤ 255 := by
  rcases lt_or_ge k 16 with hk | hk
  · interval_cases k <;> decide
  · have hdef : C64_PALETTE.getD k (0, 0, 0) = (0, 0, 0) :=
      List.getD_eq_default _ _ (by simp [C64_PALETTE]; omega)
    rw [hdef]
    exact ⟨le_refl 0, by decide, le_refl 0, by decide, le_refl 0, by decide⟩

theorem palette_inRange (k : ℕ) : pixInRange (castTriple (C64_PALETTE.getD k (0, 0, 0))) := by
  obtain ⟨h1, h2, h3, h4, h5, h6⟩ := palette_entry_bounds k
  unfold pixInRange castTriple
  dsimp only
  exact ⟨by exact_mod_cast h1, by exact_mod_cast h2, by exact_mod_cast h3,
    by exact_mod_cast h4, by exact_mod_cast h5, by exact_mod_cast h6⟩

theorem mem_set_range (b : List R3) (i : ℕ) (v : R3)
    (hb : ∀ p ∈ b, pixInRange p) (hv : pixInRange v) : ∀ q ∈ b.set i v, pixInRange q :=
  fun q hq => (List.mem_or_eq_of_mem_set hq).elim (hb q) (fun e => e ▸ hv)

theorem updAdd_range (b : List R3) (i : ℕ) (e : R3) (c : ℝ)
    (hb : ∀ p ∈ b, pixInRange p) : ∀ q ∈ updAdd b i e c, pixInRange q := by
  unfold updAdd
  exact mem_set_range _ _ _ hb
    ⟨(clampChan_bounds _).1, (clampChan_bounds _).2, (clampChan_bounds _).1,
      (clampChan_bounds _).2, (clampChan_bounds _).1, (clampChan_bounds _).2⟩

theorem fsStep_range (w h : ℕ) (buf : List R3) (y x : ℕ)
    (hb : ∀ p ∈ buf, pixInRange p) : ∀ q ∈ fsStep w h buf y x, pixInRange q := by
  unfold fsStep
  split_ifs <;> (repeat apply updAdd_range) <;>
    exact mem_set_range _ _ _ hb (palette_inRange _)

theorem foldl_preserve {σ ι : Type} (P : σ → Prop) (g : σ → ι → σ)
    (hg : ∀ s i, P s → P (g s i)) : ∀ (l : List ι) (s : σ), P s → P (l.foldl g s) := by
  intro l
  induction l with
  | nil => exact fun s hs => hs
  | cons i is ih => exact fun s hs => ih (g s i) (hg s i hs)

/-- Claim C4 (amended).  The clamp into `[0, 255]` is applied eagerly, at
the moment each error fraction is added to a neighbor (`updAdd` stores
`clampChan` of the sum); consequently every channel of every pixel of the
dithering buffer stays in `[0, 255]` throughout the pass, and the value a
later nearest-color lookup reads needs no further clamping. -/
theorem claim_C4_clamp_is_eager (w h : ℕ) (px : List R3)
    (hpx : ∀ p ∈ px, pixInRange p) :
    ∀ q ∈ apply_floyd_steinberg_dithering w h px, pixInRange q := by
  unfold apply_floyd_steinberg_dithering
  refine foldl_preserve (fun b => ∀ p ∈ b, pixInRange p) _ ?_ (List.range h) px hpx
  intro b yy hbp
  exact foldl_preserve (fun b2 => ∀ p ∈ b2, pixInRange p)
    (fun b2 xx => fsStep w h b2 yy xx) (fun b2 xx hb2 => fsStep_range w h b2 yy xx hb2)
    (List.range w) b hbp

/-- Witness for the amended C4 at a concrete 1×1 black buffer. -/
theorem claim_C4_clamp_is_eager_witness :
    (∀ p ∈ ([((0:ℝ), (0:ℝ), (0:ℝ))] : List R3), pixInRange p) ∧
      ∀ q ∈ apply_floyd_steinberg_dithering 1 1 [((0:ℝ), (0:ℝ), (0:ℝ))], pixInRange q :=
  have hp : ∀ p ∈ ([((0:ℝ), (0:ℝ), (0:ℝ))] : List R3), pixInRange p := by
    intro p hp
    rw [List.mem_singleton] at hp
    subst hp
    exact ⟨le_refl 0, by norm_num, le_refl 0, by norm_num, le_refl 0, by norm_num⟩
  ⟨hp, claim_C4_clamp_is_eager 1 1 _ hp⟩

/-- Counterexample to C4 as stated: the claim says the stored neighbor
value is the unclamped sum (`lazyStore`), clamped only later when the pixel
is processed; but the code stores `clampChan` of the sum at propagation
time, and at the reachable values `v = 0`, `error = −16`, coefficient 7 the
two differ (0 stored eagerly versus −7 stored lazily). -/
theorem claim_C4_counterexample :
    clampChan (lazyStore 0 (-16) 7) ≠ lazyStore 0 (-16) 7 := by
  norm_num [clampChan, lazyStore]

/-! ## Claim C10: the implicit tile-color policy -/

theorem insSorted_head (x : ℕ × ℕ) (acc : List (ℕ × ℕ)) :
    (insSorted x acc).head? =
      match acc.head? with
      | none => some x
      | some y => if colorKey y ≤ colorKey x then some y else some x := by
  cases acc with
  | nil => rfl
  | cons y ys =>
      simp only [insSorted, List.head?_cons]
      split <;> simp

theorem foldl_ins_some (l : List (ℕ × ℕ)) :
    ∀ y : ℕ × ℕ, ∀ acc : List (ℕ × ℕ), acc.head? = some y →
      (l.foldl (fun a x => insSorted x a) acc).head? =
        some (selLoop colorKey id l y (colorKey y)) := by
  induction l with
  | nil => intro y acc hacc; simpa [selLoop] using hacc
  | cons x xs ih =>
      intro y acc hacc
      rw [List.foldl_cons, selLoop]
      by_cases hc : (colorKey x : WithTop (Lex (ℕ × ℤ))) < (colorKey y : WithTop (Lex (ℕ × ℤ)))
      · rw [if_pos hc]
        refine ih x (insSorted x acc) ?_
        rw [insSorted_head, hacc]
        have : ¬ colorKey y ≤ colorKey x := not_le_of_lt (by exact_mod_cast hc)
        simp [this]
      · rw [if_neg hc]
        refine ih y (insSorted x acc) ?_
        rw [insSorted_head, hacc]
        have : colorKey y ≤ colorKey x := le_of_not_lt (by exact_mod_cast hc)
        simp [this]

theorem stableSort_head (z : ℕ × ℕ) (zs : List (ℕ × ℕ)) :
    (stableSort (z :: zs)).head? = some (selLoop colorKey id (z :: zs) z ⊤) := by
  unfold stableSort
  rw [List.foldl_cons, selLoop, if_pos (WithTop.coe_lt_top _)]
  exact foldl_ins_some zs z (insSorted z []) rfl

theorem dominant_eq_sel (z : ℕ × ℕ) (zs : List (ℕ × ℕ)) :
    dominant_color (z :: zs) = (selLoop colorKey id (z :: zs) z ⊤).1 := by
  unfold dominant_color
  have h := stableSort_head z zs
  rcases hss : stableSort (z :: zs) with _ | ⟨e, rest⟩
  · rw [hss] at h; simp at h
  · rw [hss] at h
    simp only [List.head?_cons, Option.some_inj] at h
    rw [h]

theorem colorKey_nonblack (e : ℕ × ℕ) (he : e.1 ≠ 0) :
    colorKey e = toLex ((0 : ℕ), -(e.2 : ℤ)) := by
  simp [colorKey, he]

theorem colorKey_black (e : ℕ × ℕ) (he : e.1 = 0) :
    colorKey e = toLex ((1 : ℕ), -(e.2 : ℤ)) := by
  simp [colorKey, he]

theorem dominant_eq_policy (cs : List (ℕ × ℕ)) : dominant_color cs = policyColor cs := by
  cases cs with
  | nil => rfl
  | cons z zs =>
      rw [dominant_eq_sel z zs]
      obtain ⟨pre, b, post, hdec, hval, hmin, hstrict⟩ :=
        selLoop_top_spec colorKey id (z :: zs) z (by simp)
      rw [hval]
      simp only [id]
      by_cases hb0 : b.1 = 0
      · have hall : ∀ e ∈ (z :: zs), e.1 = 0 := by
          intro e he
          by_contra hne
          have hlt : colorKey e < colorKey b := by
            rw [colorKey_nonblack e hne, colorKey_black b hb0]
            exact (Prod.Lex.lt_iff _ _).mpr (Or.inl (by omega))
          exact absurd (hmin e he) (not_le_of_lt hlt)
        have hfilter : (z :: zs).filter (fun e => decide (e.1 ≠ 0)) = [] := by
          rw [List.filter_eq_nil_iff]
          intro e he
          simp [hall e he]
        unfold policyColor
        rw [if_pos hfilter, hb0]
      · have hbmem : b ∈ (z :: zs).filter (fun e => decide (e.1 ≠ 0)) := by
          rw [List.mem_filter]
          exact ⟨by rw [hdec]; exact List.mem_append_right _ (List.mem_cons_self _ _),
            by simpa using hb0⟩
        have hfdec : (z :: zs).filter (fun e => decide (e.1 ≠ 0)) =
            pre.filter (fun e => decide (e.1 ≠ 0)) ++
              b :: post.filter (fun e => decide (e.1 ≠ 0)) := by
          rw [hdec, List.filter_append, List.filter_cons, if_pos (by simpa using hb0)]
        unfold policyColor
        rw [if_neg (by intro hemp; rw [hemp] at hbmem; simp at hbmem), hfdec]
        refine (selLoop_firstmin (fun e : ℕ × ℕ => -(e.2 : ℤ)) Prod.fst _ _ b 0 ⊤
            (WithTop.coe_lt_top _) ?_ ?_).symm
        · intro e hef
          obtain ⟨hep, hene⟩ := List.mem_filter.mp hef
          have hene2 : e.1 ≠ 0 := by simpa using hene
          have hlt : colorKey b < colorKey e := hstrict e hep
          rw [colorKey_nonblack b hb0, colorKey_nonblack e hene2] at hlt
          rcases (Prod.Lex.lt_iff _ _).mp hlt with h1 | ⟨-, h2⟩
          · exact absurd h1 (lt_irrefl 0)
          · exact h2
        · intro e hef
          obtain ⟨hep, hene⟩ := List.mem_filter.mp hef
          have hene2 : e.1 ≠ 0 := by simpa using hene
          have hle : colorKey b ≤ colorKey e :=
            hmin e (by rw [hdec]; exact List.mem_append_right _ (List.mem_cons_of_mem _ hep))
          rw [colorKey_nonblack b hb0, colorKey_nonblack e hene2] at hle
          rcases (Prod.Lex.le_iff _ _).mp hle with h1 | ⟨-, h2⟩
          · exact absurd h1 (lt_irrefl 0)
          · exact not_lt_of_le h2

theorem dominant_zero_all_black (cs : List (ℕ × ℕ)) (h0 : dominant_color cs = 0) :
    ∀ e ∈ cs, e.1 = 0 := by
  intro e he
  by_contra hne
  have hpol := dominant_eq_policy cs
  rw [h0] at hpol
  have hmem : e ∈ cs.filter (fun e2 => decide (e2.1 ≠ 0)) :=
    List.mem_filter.mpr ⟨he, by simpa using hne⟩
  have hfne : cs.filter (fun e2 => decide (e2.1 ≠ 0)) ≠ [] := by
    intro hemp; rw [hemp] at hmem; simp at hmem
  unfold policyColor at hpol
  rw [if_neg hfne] at hpol
  obtain ⟨pre, b, post, hdec, hval, -, -⟩ :=
    selLoop_top_spec (fun e2 : ℕ × ℕ => -(e2.2 : ℤ)) Prod.fst
      (cs.filter (fun e2 => decide (e2.1 ≠ 0))) 0 hfne
  rw [hval] at hpol
  have hbmem : b ∈ cs.filter (fun e2 => decide (e2.1 ≠ 0)) := by
    rw [hdec]
    exact List.mem_append_right _ (List.mem_cons_self _ _)
  obtain ⟨-, hbne⟩ := List.mem_filter.mp hbmem
  exact absurd (by simpa using hpol.symm) (by simpa using hbne)

/-- Claim C10 (confirmed).  The tile color the pipeline emits for a cell is
`dominant_color` of the cell's occurrence counts (`cellColors`, which counts
the RGB-metric nearest-palette index of every in-bounds pixel of the tile —
all 64 of them, not only foreground ones); and that selection equals the
stated policy (`policyColor`): among the non-black indices the first one (in
pixel scan order) attaining the maximal count, any non-black index
preferred over black regardless of frequency, and black emitted only when
every counted pixel of the tile quantizes to black. -/
theorem claim_C10_tile_color (cs : List (ℕ × ℕ)) (w h : ℕ) (px : List Z3) (t : ℕ)
    (inv : Bool) (st : GenState) (cy cx : ℕ) :
    dominant_color cs = policyColor cs ∧
      (dominant_color cs = 0 → ∀ e ∈ cs, e.1 = 0) ∧
      (processCell w h px t inv st cy cx).color =
        (internPattern st (cellBytes w h px t inv cx cy)).1.color ++
          [dominant_color (cellColors w h px cx cy)] :=
  ⟨dominant_eq_policy cs, dominant_zero_all_black cs, rfl⟩

/-! ## Claim C1: the 256-entry capacity of the pattern interner -/

set_option maxRecDepth 8192 in
/-- Claim C1 (code bug in `christmas/image.py`).  At a table that already
holds 256 distinct interned patterns, an unseen incoming pattern is NOT
remapped by the module-level loop of `image.py`: its guard
`len(maxcolor.keys()) <= 256` still admits it, so the table grows to 257
entries and the screen stream receives the fresh index 256 — contradicting
the 256-entry capacity the claim (and the code's own padding comment and
2048-byte truncation) require.  The rewritten interner of
`image_improved.py` (`internPattern`, guard `char_counter < 256`) does obey
the capacity: at the same input it inserts nothing. -/
theorem claim_C1_capacity :
    fullTable.length = 256 ∧
      lookupPat fullTable freshPat = none ∧
      (imagePyStep fullTable 256 freshPat).1.length = 257 ∧
      (imagePyStep fullTable 256 freshPat).2.2 = 256 ∧
      (internPattern ⟨fullTable, fullTable.map Prod.fst, 256, [], []⟩ freshPat).1.charmap.length
        = 256 := by
  have hlen : fullTable.length = 256 := by simp [fullTable]
  have hlook : lookupPat fullTable freshPat = none := by decide
  refine ⟨hlen, hlook, ?_, ?_, ?_⟩
  · unfold imagePyStep
    rw [hlook]
    simp [hlen]
  · unfold imagePyStep
    rw [hlook]
    simp [hlen]
  · unfold internPattern
    rw [hlook]
    simp [hlen]

/-! ## Exact rational bounds for the Lab transform -/

theorem rpow_fifth_pow (A : ℝ) (hA : 0 ≤ A) : (A ^ ((1:ℝ)/5)) ^ (5:ℕ) = A := by
  rw [← Real.rpow_natCast (A ^ ((1:ℝ)/5)) 5, ← Real.rpow_mul hA,
    show ((1:ℝ)/5) * ((5:ℕ):ℝ) = 1 by push_cast; ring, Real.rpow_one]

theorem rpow_third_pow (A : ℝ) (hA : 0 ≤ A) : (A ^ ((1:ℝ)/3)) ^ (3:ℕ) = A := by
  rw [← Real.rpow_natCast (A ^ ((1:ℝ)/3)) 3, ← Real.rpow_mul hA,
    show ((1:ℝ)/3) * ((3:ℕ):ℝ) = 1 by push_cast; ring, Real.rpow_one]

theorem rpow24_eq (b : ℝ) (hb : 0 ≤ b) : b ^ (2.4 : ℝ) = (b ^ (12 : ℕ)) ^ ((1 : ℝ) / 5) := by
  rw [show (2.4 : ℝ) = ((12:ℕ):ℝ) * ((1 : ℝ) / 5) by push_cast; norm_num,
    ← Real.rpow_natCast b 12, ← Real.rpow_mul hb]

theorem rpow24_lt_iff (b q : ℝ) (hb : 0 ≤ b) (hq : 0 ≤ q) :
    b ^ (2.4 : ℝ) < q ↔ b ^ (12 : ℕ) < q ^ (5 : ℕ) := by
  rw [rpow24_eq b hb]
  constructor
  · intro h
    have h5 := pow_lt_pow_left₀ h (Real.rpow_nonneg (by positivity) _) (by norm_num : (5:ℕ) ≠ 0)
    rwa [rpow_fifth_pow _ (by positivity)] at h5
  · intro h
    have h5 : ((b ^ (12 : ℕ)) ^ ((1 : ℝ) / 5)) ^ (5 : ℕ) < q ^ (5 : ℕ) := by
      rwa [rpow_fifth_pow _ (by positivity)]
    exact lt_of_pow_lt_pow_left₀ 5 hq h5

theorem lt_rpow24_iff (b q : ℝ) (hb : 0 ≤ b) (hq : 0 ≤ q) :
    q < b ^ (2.4 : ℝ) ↔ q ^ (5 : ℕ) < b ^ (12 : ℕ) := by
  rw [rpow24_eq b hb]
  constructor
  · intro h
    have h5 := pow_lt_pow_left₀ h hq (by norm_num : (5:ℕ) ≠ 0)
    rwa [rpow_fifth_pow _ (by positivity)] at h5
  · intro h
    have h5 : q ^ (5:ℕ) < ((b ^ (12 : ℕ)) ^ ((1 : ℝ) / 5)) ^ (5 : ℕ) := by
      rwa [rpow_fifth_pow _ (by positivity)]
    exact lt_of_pow_lt_pow_left₀ 5 (Real.rpow_nonneg (by positivity) _) h5

theorem rpow13_lt_iff (b q : ℝ) (hb : 0 ≤ b) (hq : 0 ≤ q) :
    b ^ ((1:ℝ)/3) < q ↔ b < q ^ (3 : ℕ) := by
  constructor
  · intro h
    have h3 := pow_lt_pow_left₀ h (Real.rpow_nonneg hb _) (by norm_num : (3:ℕ) ≠ 0)
    rwa [rpow_third_pow _ hb] at h3
  · intro h
    have h3 : (b ^ ((1:ℝ)/3)) ^ (3:ℕ) < q ^ (3:ℕ) := by rwa [rpow_third_pow _ hb]
    exact lt_of_pow_lt_pow_left₀ 3 hq h3

theorem lt_rpow13_iff (b q : ℝ) (hb : 0 ≤ b) (hq : 0 ≤ q) :
    q < b ^ ((1:ℝ)/3) ↔ q ^ (3 : ℕ) < b := by
  constructor
  · intro h
    have h3 := pow_lt_pow_left₀ h hq (by norm_num : (3:ℕ) ≠ 0)
    rwa [rpow_third_pow _ hb] at h3
  · intro h
    have h3 : q ^ (3:ℕ) < (b ^ ((1:ℝ)/3)) ^ (3:ℕ) := by rwa [rpow_third_pow _ hb]
    exact lt_of_pow_lt_pow_left₀ 3 (Real.rpow_nonneg hb _) h3

theorem srgb_channel_zero : srgb_channel 0 = 0 := by
  unfold srgb_channel
  rw [if_neg (by norm_num)]
  norm_num

theorem srgb_channel_one : srgb_channel 1 = 1 := by
  unfold srgb_channel
  rw [if_pos (by norm_num), show ((1:ℝ) + 0.055) / 1.055 = 1 by norm_num, Real.one_rpow]

theorem gammaB51 : (0.033104766569:ℝ) < srgb_channel ((51:ℝ)/255) ∧
    srgb_channel ((51:ℝ)/255) < 0.033104766572 := by
  unfold srgb_channel
  rw [if_pos (by norm_num),
    show ((51:ℝ)/255 + 0.055) / 1.055 = 51/211 by norm_num]
  constructor
  · rw [lt_rpow24_iff _ _ (by norm_num) (by norm_num)]
    norm_num
  · rw [rpow24_lt_iff _ _ (by norm_num) (by norm_num)]
    norm_num

theorem gammaB68 : (0.057805430190:ℝ) < srgb_channel ((68:ℝ)/255) ∧
    srgb_channel ((68:ℝ)/255) < 0.057805430193 := by
  unfold srgb_channel
  rw [if_pos (by norm_num),
    show ((68:ℝ)/255 + 0.055) / 1.055 = 193/633 by norm_num]
  constructor
  · rw [lt_rpow24_iff _ _ (by norm_num) (by norm_num)]
    norm_num
  · rw [rpow24_lt_iff _ _ (by norm_num) (by norm_num)]
    norm_num

theorem gammaB85 : (0.090841711182:ℝ) < srgb_channel ((85:ℝ)/255) ∧
    srgb_channel ((85:ℝ)/255) < 0.090841711185 := by
  unfold srgb_channel
  rw [if_pos (by norm_num),
    show ((85:ℝ)/255 + 0.055) / 1.055 = 233/633 by norm_num]
  constructor
  · rw [lt_rpow24_iff _ _ (by norm_num) (by norm_num)]
    norm_num
  · rw [rpow24_lt_iff _ _ (by norm_num) (by norm_num)]
    norm_num

theorem gammaB102 : (0.132868321552:ℝ) < srgb_channel ((102:ℝ)/255) ∧
    srgb_channel ((102:ℝ)/255) < 0.132868321555 := by
  unfold srgb_channel
  rw [if_pos (by norm_num),
    show ((102:ℝ)/255 + 0.055) / 1.055 = 91/211 by norm_num]
  constructor
  · rw [lt_rpow24_iff _ _ (by norm_num) (by norm_num)]
    norm_num
  · rw [rpow24_lt_iff _ _ (by norm_num) (by norm_num)]
    norm_num

theorem gammaB119 : (0.184474994499:ℝ) < srgb_channel ((119:ℝ)/255) ∧
    srgb_channel ((119:ℝ)/255) < 0.184474994502 := by
  unfold srgb_channel
  rw [if_pos (by norm_num),
    show ((119:ℝ)/255 + 0.055) / 1.055 = 313/633 by norm_num]
  constructor
  · rw [lt_rpow24_iff _ _ (by norm_num) (by norm_num)]
    norm_num
  · rw [rpow24_lt_iff _ _ (by norm_num) (by norm_num)]
    norm_num

theorem gammaB136 : (0.246201326706:ℝ) < srgb_channel ((136:ℝ)/255) ∧
    srgb_channel ((136:ℝ)/255) < 0.246201326709 := by
  unfold srgb_channel
  rw [if_pos (by norm_num),
    show ((136:ℝ)/255 + 0.055) / 1.055 = 353/633 by norm_num]
  constructor
  · rw [lt_rpow24_iff _ _ (by norm_num) (by norm_num)]
    norm_num
  · rw [rpow24_lt_iff _ _ (by norm_num) (by norm_num)]
    norm_num

theorem gammaB170 : (0.401977779831:ℝ) < srgb_channel ((170:ℝ)/255) ∧
    srgb_channel ((170:ℝ)/255) < 0.401977779834 := by
  unfold srgb_channel
  rw [if_pos (by norm_num),
    show ((170:ℝ)/255 + 0.055) / 1.055 = 433/633 by norm_num]
  constructor
  · rw [lt_rpow24_iff _ _ (by norm_num) (by norm_num)]
    norm_num
  · rw [rpow24_lt_iff _ _ (by norm_num) (by norm_num)]
    norm_num

theorem gammaB187 : (0.496932995059:ℝ) < srgb_channel ((187:ℝ)/255) ∧
    srgb_channel ((187:ℝ)/255) < 0.496932995062 := by
  unfold srgb_channel
  rw [if_pos (by norm_num),
    show ((187:ℝ)/255 + 0.055) / 1.055 = 473/633 by norm_num]
  constructor
  · rw [lt_rpow24_iff _ _ (by norm_num) (by norm_num)]
    norm_num
  · rw [rpow24_lt_iff _ _ (by norm_num) (by norm_num)]
    norm_num

theorem gammaB204 : (0.603827338854:ℝ) < srgb_channel ((204:ℝ)/255) ∧
    srgb_channel ((204:ℝ)/255) < 0.603827338857 := by
  unfold srgb_channel
  rw [if_pos (by norm_num),
    show ((204:ℝ)/255 + 0.055) / 1.055 = 171/211 by norm_num]
  constructor
  · rw [lt_rpow24_iff _ _ (by norm_num) (by norm_num)]
    norm_num
  · rw [rpow24_lt_iff _ _ (by norm_num) (by norm_num)]
    norm_num

theorem gammaB221 : (0.723055128920:ℝ) < srgb_channel ((221:ℝ)/255) ∧
    srgb_channel ((221:ℝ)/255) < 0.723055128923 := by
  unfold srgb_channel
  rw [if_pos (by norm_num),
    show ((221:ℝ)/255 + 0.055) / 1.055 = 553/633 by norm_num]
  constructor
  · rw [lt_rpow24_iff _ _ (by norm_num) (by norm_num)]
    norm_num
  · rw [rpow24_lt_iff _ _ (by norm_num) (by norm_num)]
    norm_num

theorem gammaB238 : (0.854992608123:ℝ) < srgb_channel ((238:ℝ)/255) ∧
    srgb_channel ((238:ℝ)/255) < 0.854992608126 := by
  unfold srgb_channel
  rw [if_pos (by norm_num),
    show ((238:ℝ)/255 + 0.055) / 1.055 = 593/633 by norm_num]
  constructor
  · rw [lt_rpow24_iff _ _ (by norm_num) (by norm_num)]
    norm_num
  · rw [rpow24_lt_iff _ _ (by norm_num) (by norm_num)]
    norm_num
theorem yB0 : linY (palR3 0) = 0 := by
  rw [show palR3 0 = ((0:ℝ), 0, 0) by norm_num [palR3, C64_PALETTE, castTriple]]
  unfold linY
  dsimp only
  rw [show ((0:ℝ)/255) = 0 by norm_num, srgb_channel_zero]
  ring

theorem yB1 : linY (palR3 1) = 1.0000001 := by
  rw [show palR3 1 = ((255:ℝ), 255, 255) by norm_num [palR3, C64_PALETTE, castTriple]]
  unfold linY
  dsimp only
  rw [show ((255:ℝ)/255) = 1 by norm_num, srgb_channel_one]
  norm_num

theorem yB2 : (0.052360350:ℝ) < linY (palR3 2) ∧ linY (palR3 2) < 0.052360351 := by
  rw [show palR3 2 = ((136:ℝ), (0:ℝ), (0:ℝ)) by norm_num [palR3, C64_PALETTE, castTriple]]
  unfold linY
  dsimp only
  rw [show ((0:ℝ)/255) = 0 by norm_num, srgb_channel_zero]
  constructor <;> linarith [gammaB136.1, gammaB136.2]

theorem yB3 : (0.862351071:ℝ) < linY (palR3 3) ∧ linY (palR3 3) < 0.862351072 := by
  rw [show palR3 3 = ((170:ℝ), (255:ℝ), (238:ℝ)) by norm_num [palR3, C64_PALETTE, castTriple]]
  unfold linY
  dsimp only
  rw [show ((255:ℝ)/255) = 1 by norm_num, srgb_channel_one]
  constructor <;> linarith [gammaB170.1, gammaB170.2, gammaB238.1, gammaB238.2]

theorem yB4 : (0.213338630:ℝ) < linY (palR3 4) ∧ linY (palR3 4) < 0.213338631 := by
  rw [show palR3 4 = ((204:ℝ), (68:ℝ), (204:ℝ)) by norm_num [palR3, C64_PALETTE, castTriple]]
  unfold linY
  dsimp only
  constructor <;> linarith [gammaB68.1, gammaB68.2, gammaB204.1, gammaB204.2]

theorem yB5 : (0.438384950:ℝ) < linY (palR3 5) ∧ linY (palR3 5) < 0.438384951 := by
  rw [show palR3 5 = ((0:ℝ), (204:ℝ), (85:ℝ)) by norm_num [palR3, C64_PALETTE, castTriple]]
  unfold linY
  dsimp only
  rw [show ((0:ℝ)/255) = 0 by norm_num, srgb_channel_zero]
  constructor <;> linarith [gammaB85.1, gammaB85.2, gammaB204.1, gammaB204.2]

theorem yB6 : (0.029012746:ℝ) < linY (palR3 6) ∧ linY (palR3 6) < 0.029012747 := by
  rw [show palR3 6 = ((0:ℝ), (0:ℝ), (170:ℝ)) by norm_num [palR3, C64_PALETTE, castTriple]]
  unfold linY
  dsimp only
  rw [show ((0:ℝ)/255) = 0 by norm_num, srgb_channel_zero]
  constructor <;> linarith [gammaB170.1, gammaB170.2]

theorem yB7 : (0.806598084:ℝ) < linY (palR3 7) ∧ linY (palR3 7) < 0.806598085 := by
  rw [show palR3 7 = ((238:ℝ), (238:ℝ), (119:ℝ)) by norm_num [palR3, C64_PALETTE, castTriple]]
  unfold linY
  dsimp only
  constructor <;> linarith [gammaB119.1, gammaB119.2, gammaB238.1, gammaB238.2]

theorem yB8 : (0.336402152:ℝ) < linY (palR3 8) ∧ linY (palR3 8) < 0.336402153 := by
  rw [show palR3 8 = ((221:ℝ), (136:ℝ), (85:ℝ)) by norm_num [palR3, C64_PALETTE, castTriple]]
  unfold linY
  dsimp only
  constructor <;> linarith [gammaB85.1, gammaB85.2, gammaB136.1, gammaB136.2, gammaB221.1, gammaB221.2]

theorem yB9 : (0.069597171:ℝ) < linY (palR3 9) ∧ linY (palR3 9) < 0.069597172 := by
  rw [show palR3 9 = ((102:ℝ), (68:ℝ), (0:ℝ)) by norm_num [palR3, C64_PALETTE, castTriple]]
  unfold linY
  dsimp only
  rw [show ((0:ℝ)/255) = 0 by norm_num, srgb_channel_zero]
  constructor <;> linarith [gammaB68.1, gammaB68.2, gammaB102.1, gammaB102.2]

theorem yB10 : (0.357915080:ℝ) < linY (palR3 10) ∧ linY (palR3 10) < 0.357915081 := by
  rw [show palR3 10 = ((255:ℝ), (119:ℝ), (119:ℝ)) by norm_num [palR3, C64_PALETTE, castTriple]]
  unfold linY
  dsimp only
  rw [show ((255:ℝ)/255) = 1 by norm_num, srgb_channel_one]
  constructor <;> linarith [gammaB119.1, gammaB119.2]

theorem yB11 : (0.033104769:ℝ) < linY (palR3 11) ∧ linY (palR3 11) < 0.033104770 := by
  rw [show palR3 11 = ((51:ℝ), (51:ℝ), (51:ℝ)) by norm_num [palR3, C64_PALETTE, castTriple]]
  unfold linY
  dsimp only
  constructor <;> linarith [gammaB51.1, gammaB51.2]

theorem yB12 : (0.184475012:ℝ) < linY (palR3 12) ∧ linY (palR3 12) < 0.184475013 := by
  rw [show palR3 12 = ((119:ℝ), (119:ℝ), (119:ℝ)) by norm_num [palR3, C64_PALETTE, castTriple]]
  unfold linY
  dsimp only
  constructor <;> linarith [gammaB119.1, gammaB119.2]

theorem yB13 : (0.810231751:ℝ) < linY (palR3 13) ∧ linY (palR3 13) < 0.810231752 := by
  rw [show palR3 13 = ((170:ℝ), (255:ℝ), (102:ℝ)) by norm_num [palR3, C64_PALETTE, castTriple]]
  unfold linY
  dsimp only
  rw [show ((255:ℝ)/255) = 1 by norm_num, srgb_channel_one]
  constructor <;> linarith [gammaB102.1, gammaB102.2, gammaB170.1, gammaB170.2]

theorem yB14 : (0.248246420:ℝ) < linY (palR3 14) ∧ linY (palR3 14) < 0.248246421 := by
  rw [show palR3 14 = ((0:ℝ), (136:ℝ), (255:ℝ)) by norm_num [palR3, C64_PALETTE, castTriple]]
  unfold linY
  dsimp only
  rw [show ((0:ℝ)/255) = 0 by norm_num, srgb_channel_zero]
  rw [show ((255:ℝ)/255) = 1 by norm_num, srgb_channel_one]
  constructor <;> linarith [gammaB136.1, gammaB136.2]

theorem yB15 : (0.496933044:ℝ) < linY (palR3 15) ∧ linY (palR3 15) < 0.496933045 := by
  rw [show palR3 15 = ((187:ℝ), (187:ℝ), (187:ℝ)) by norm_num [palR3, C64_PALETTE, castTriple]]
  unfold linY
  dsimp only
  constructor <;> linarith [gammaB187.1, gammaB187.2]
theorem labF_mono (a b : ℝ) (ha : 0 ≤ a) (hab : a < b) : labF a < labF b := by
  unfold labF
  by_cases hb8 : b > 0.008856
  · by_cases ha8 : a > 0.008856
    · rw [if_pos ha8, if_pos hb8]
      exact Real.rpow_lt_rpow ha hab (by norm_num)
    · rw [if_neg ha8, if_pos hb8]
      push_neg at ha8
      have h2 : (7.787 * 0.008856 + 16/116 : ℝ) < b ^ ((1:ℝ)/3) := by
        rw [lt_rpow13_iff b _ (by linarith) (by norm_num)]
        have h3 : ((7.787 * 0.008856 + 16/116 : ℝ)) ^ (3:ℕ) < 0.008856 := by norm_num
        linarith
      linarith
  · push_neg at hb8
    rw [if_neg (by push_neg; linarith), if_neg (by push_neg; exact hb8)]
    linarith

theorem labL_eq_linY (p : R3) : (rgb_to_lab p).1 = 116 * labF (linY p / 1.00000) - 16 := rfl

theorem palL_chain :
    (rgb_to_lab (palR3 0)).1 < (rgb_to_lab (palR3 6)).1 ∧
      (rgb_to_lab (palR3 6)).1 < (rgb_to_lab (palR3 11)).1 ∧
      (rgb_to_lab (palR3 11)).1 < (rgb_to_lab (palR3 2)).1 ∧
      (rgb_to_lab (palR3 2)).1 < (rgb_to_lab (palR3 9)).1 ∧
      (rgb_to_lab (palR3 9)).1 < (rgb_to_lab (palR3 12)).1 ∧
      (rgb_to_lab (palR3 12)).1 < (rgb_to_lab (palR3 4)).1 ∧
      (rgb_to_lab (palR3 4)).1 < (rgb_to_lab (palR3 14)).1 ∧
      (rgb_to_lab (palR3 14)).1 < (rgb_to_lab (palR3 8)).1 ∧
      (rgb_to_lab (palR3 8)).1 < (rgb_to_lab (palR3 10)).1 ∧
      (rgb_to_lab (palR3 10)).1 < (rgb_to_lab (palR3 5)).1 ∧
      (rgb_to_lab (palR3 5)).1 < (rgb_to_lab (palR3 15)).1 ∧
      (rgb_to_lab (palR3 15)).1 < (rgb_to_lab (palR3 7)).1 ∧
      (rgb_to_lab (palR3 7)).1 < (rgb_to_lab (palR3 13)).1 ∧
      (rgb_to_lab (palR3 13)).1 < (rgb_to_lab (palR3 3)).1 ∧
      (rgb_to_lab (palR3 3)).1 < (rgb_to_lab (palR3 1)).1 := by
  have step : ∀ (pa pb : R3), 0 ≤ linY pa → linY pa < linY pb →
      (rgb_to_lab pa).1 < (rgb_to_lab pb).1 := by
    intro pa pb h0 hlt
    rw [labL_eq_linY, labL_eq_linY,
      show linY pa / 1.00000 = linY pa by norm_num,
      show linY pb / 1.00000 = linY pb by norm_num]
    have hm := labF_mono _ _ h0 hlt
    linarith
  refine ⟨?_, ?_, ?_, ?_, ?_, ?_, ?_, ?_, ?_, ?_, ?_, ?_, ?_, ?_, ?_⟩
  · exact step _ _ (by linarith [yB0.le, yB0.ge]) (by linarith [yB0.ge, yB0.le, yB6.1, yB6.2])
  · exact step _ _ (by linarith [yB6.1, yB6.2]) (by linarith [yB11.1, yB11.2, yB6.1, yB6.2])
  · exact step _ _ (by linarith [yB11.1, yB11.2]) (by linarith [yB11.1, yB11.2, yB2.1, yB2.2])
  · exact step _ _ (by linarith [yB2.1, yB2.2]) (by linarith [yB2.1, yB2.2, yB9.1, yB9.2])
  · exact step _ _ (by linarith [yB9.1, yB9.2]) (by linarith [yB12.1, yB12.2, yB9.1, yB9.2])
  · exact step _ _ (by linarith [yB12.1, yB12.2]) (by linarith [yB12.1, yB12.2, yB4.1, yB4.2])
  · exact step _ _ (by linarith [yB4.1, yB4.2]) (by linarith [yB14.1, yB14.2, yB4.1, yB4.2])
  · exact step _ _ (by linarith [yB14.1, yB14.2]) (by linarith [yB14.1, yB14.2, yB8.1, yB8.2])
  · exact step _ _ (by linarith [yB8.1, yB8.2]) (by linarith [yB10.1, yB10.2, yB8.1, yB8.2])
  · exact step _ _ (by linarith [yB10.1, yB10.2]) (by linarith [yB10.1, yB10.2, yB5.1, yB5.2])
  · exact step _ _ (by linarith [yB5.1, yB5.2]) (by linarith [yB15.1, yB15.2, yB5.1, yB5.2])
  · exact step _ _ (by linarith [yB15.1, yB15.2]) (by linarith [yB15.1, yB15.2, yB7.1, yB7.2])
  · exact step _ _ (by linarith [yB7.1, yB7.2]) (by linarith [yB13.1, yB13.2, yB7.1, yB7.2])
  · exact step _ _ (by linarith [yB13.1, yB13.2]) (by linarith [yB13.1, yB13.2, yB3.1, yB3.2])
  · exact step _ _ (by linarith [yB3.1, yB3.2]) (by linarith [yB1.ge, yB1.le, yB3.1, yB3.2])

set_option maxHeartbeats 2000000 in
theorem palL_ne (j k : ℕ) (hj : j < 16) (hk : k < 16) (hne : j ≠ k) :
    (rgb_to_lab (palR3 j)).1 ≠ (rgb_to_lab (palR3 k)).1 := by
  obtain ⟨c1, c2, c3, c4, c5, c6, c7, c8, c9, c10, c11, c12, c13, c14, c15⟩ := palL_chain
  interval_cases j <;> interval_cases k <;>
    first
      | exact absurd rfl hne
      | exact ne_of_lt (by linarith)
      | exact ne_of_gt (by linarith)

theorem palette_lab_getD (j : ℕ) (hj : j < 16) :
    C64_PALETTE_LAB.getD j (0, 0, 0) = rgb_to_lab (palR3 j) := by
  have hlen : j < C64_PALETTE.length := by simpa [C64_PALETTE] using hj
  unfold C64_PALETTE_LAB palR3
  rw [List.getD_eq_getElem?_getD, List.getElem?_map, List.getElem?_eq_getElem hlen,
    List.getD_eq_getElem?_getD, List.getElem?_eq_getElem hlen]
  rfl

theorem labDistTo_pal_self (k : ℕ) (hk : k < 16) : labDistTo (palR3 k) k = 0 := by
  unfold labDistTo
  rw [palette_lab_getD k hk]
  simp [sub_self]

theorem labDistTo_pal_pos (k j : ℕ) (hk : k < 16) (hj : j < 16) (hne : j ≠ k) :
    0 < labDistTo (palR3 k) j := by
  unfold labDistTo
  rw [palette_lab_getD j hj]
  apply Real.sqrt_pos.mpr
  have hLne : (rgb_to_lab (palR3 k)).1 - (rgb_to_lab (palR3 j)).1 ≠ 0 := by
    have hne2 := palL_ne k j hk hj (fun he => hne he.symm)
    intro hzero
    exact hne2 (by linarith)
  nlinarith [mul_self_nonneg ((rgb_to_lab (palR3 k)).2.1 - (rgb_to_lab (palR3 j)).2.1),
    mul_self_nonneg ((rgb_to_lab (palR3 k)).2.2 - (rgb_to_lab (palR3 j)).2.2),
    mul_self_pos.mpr hLne]

theorem find_pal (k : ℕ) (hk : k < 16) : find_nearest_color (palR3 k) true = k := by
  unfold find_nearest_color
  rw [if_pos rfl]
  exact selRange16_eq_of_zero (labDistTo (palR3 k)) k hk (labDistTo_pal_self k hk)
    (fun j => Real.sqrt_nonneg _)
    (fun j hj => labDistTo_pal_pos k j hk (by omega) (by omega))

/-! ## Claim C7: idempotence of non-dithered quantization -/

/-- Claim C7 (confirmed).  Non-dithered quantization is idempotent: on a
buffer in which every pixel is already equal to some palette entry,
`convert_to_c64_direct` (which maps each pixel to its nearest palette color
under the default Lab metric) reproduces exactly the same buffer.  The
proof rests on the sixteen palette entries having pairwise distinct Lab
images (their L components are pairwise distinct), so a palette-exact pixel
is matched to its own index. -/
theorem claim_C7_direct_idempotent (buf : List Z3)
    (hbuf : ∀ p ∈ buf, ∃ k, k < 16 ∧ C64_PALETTE.getD k (0, 0, 0) = p) :
    convert_to_c64_direct buf = buf := by
  unfold convert_to_c64_direct
  have hfix : ∀ p ∈ buf,
      C64_PALETTE.getD (find_nearest_color (castTriple p) true) (0, 0, 0) = p := by
    intro p hp
    obtain ⟨k, hk, hpk⟩ := hbuf p hp
    rw [← hpk, show castTriple (C64_PALETTE.getD k (0, 0, 0)) = palR3 k from rfl,
      find_pal k hk]
  calc buf.map (fun p => C64_PALETTE.getD (find_nearest_color (castTriple p) true) (0, 0, 0))
      = buf.map id := List.map_congr_left hfix
    _ = buf := List.map_id buf

/-- Witness for C7 at the concrete two-pixel buffer [black, white]. -/
theorem claim_C7_direct_idempotent_witness :
    (∀ p ∈ ([((0:ℤ), (0:ℤ), (0:ℤ)), ((255:ℤ), (255:ℤ), (255:ℤ))] : List Z3),
        ∃ k, k < 16 ∧ C64_PALETTE.getD k (0, 0, 0) = p) ∧
      convert_to_c64_direct [((0:ℤ), (0:ℤ), (0:ℤ)), ((255:ℤ), (255:ℤ), (255:ℤ))] =
        [((0:ℤ), (0:ℤ), (0:ℤ)), ((255:ℤ), (255:ℤ), (255:ℤ))] :=
  have hp : ∀ p ∈ ([((0:ℤ), (0:ℤ), (0:ℤ)), ((255:ℤ), (255:ℤ), (255:ℤ))] : List Z3),
      ∃ k, k < 16 ∧ C64_PALETTE.getD k (0, 0, 0) = p := by
    intro p hp
    rcases List.mem_cons.mp hp with rfl | hp2
    · exact ⟨0, by norm_num, rfl⟩
    · rcases List.mem_cons.mp hp2 with rfl | hp3
      · exact ⟨1, by norm_num, rfl⟩
      · exact absurd hp3 (List.not_mem_nil p)
  ⟨hp, claim_C7_direct_idempotent _ hp⟩

/-! ## Constant images through the pipeline (claims C3 and C9) -/

theorem getD_replicate_lt {α : Type} (n i : ℕ) (v d : α) (h : i < n) :
    (List.replicate n v).getD i d = v := by
  rw [List.getD_eq_getElem?_getD, List.getElem?_replicate, if_pos h]
  rfl

theorem set_replicate_self {α : Type} (n i : ℕ) (v : α) :
    (List.replicate n v).set i v = List.replicate n v := by
  induction n generalizing i with
  | zero => simp
  | succ m ih =>
      cases i with
      | zero => simp [List.replicate_succ]
      | succ j => simp [List.replicate_succ, List.set, ih]

theorem updAdd_const (n : ℕ) (v : R3)
    (h1 : 0 ≤ v.1) (h2 : v.1 ≤ 255) (h3 : 0 ≤ v.2.1) (h4 : v.2.1 ≤ 255)
    (h5 : 0 ≤ v.2.2) (h6 : v.2.2 ≤ 255) :
    ∀ (i : ℕ) (c : ℝ),
      updAdd (List.replicate n v) i ((0:ℝ), (0:ℝ), (0:ℝ)) c = List.replicate n v := by
  intro i c
  unfold updAdd
  rcases lt_or_ge i n with hin | hin
  · rw [getD_replicate_lt n i v (0, 0, 0) hin]
    dsimp only
    rw [show (0:ℝ) * c / 16 = 0 by ring]
    simp only [add_zero]
    unfold clampChan
    rw [min_eq_right h2, max_eq_right h1, min_eq_right h4, max_eq_right h3,
      min_eq_right h6, max_eq_right h5, (by simp : (v.1, v.2.1, v.2.2) = v)]
    exact set_replicate_self n i v
  · exact List.set_eq_of_length_le (by simpa using hin)

theorem fsStep_const (w h n : ℕ) (v : R3) (vz : Z3) (y x : ℕ)
    (hx : x < w) (hy : y < h) (hwh : w * h ≤ n)
    (hfind : C64_PALETTE.getD (find_nearest_color v true) (0, 0, 0) = vz)
    (hcast : castTriple vz = v)
    (h1 : 0 ≤ v.1) (h2 : v.1 ≤ 255) (h3 : 0 ≤ v.2.1) (h4 : v.2.1 ≤ 255)
    (h5 : 0 ≤ v.2.2) (h6 : v.2.2 ≤ 255) :
    fsStep w h (List.replicate n v) y x = List.replicate n v := by
  have hidx : y * w + x < n := by
    calc y * w + x < y * w + w := Nat.add_lt_add_left hx _
      _ = (y + 1) * w := by ring
      _ ≤ h * w := Nat.mul_le_mul_right w (Nat.succ_le_of_lt hy)
      _ = w * h := Nat.mul_comm h w
      _ ≤ n := hwh
  simp only [fsStep]
  rw [getD_replicate_lt n _ v (0, 0, 0) hidx, hfind, hcast]
  simp only [sub_self]
  rw [set_replicate_self]
  split_ifs <;> simp only [updAdd_const n v h1 h2 h3 h4 h5 h6]

theorem foldl_preserve_mem {σ ι : Type} (P : σ → Prop) (g : σ → ι → σ) :
    ∀ l : List ι, (∀ s, ∀ i ∈ l, P s → P (g s i)) → ∀ s, P s → P (l.foldl g s) := by
  intro l
  induction l with
  | nil => exact fun _ s hs => hs
  | cons i is ih =>
      intro hg s hs
      exact ih (fun s2 j hj => hg s2 j (List.mem_cons_of_mem _ hj)) _ (hg s i (by simp) hs)

theorem dither_const (w h n : ℕ) (v : R3) (vz : Z3) (hwh : w * h ≤ n)
    (hfind : C64_PALETTE.getD (find_nearest_color v true) (0, 0, 0) = vz)
    (hcast : castTriple vz = v)
    (h1 : 0 ≤ v.1) (h2 : v.1 ≤ 255) (h3 : 0 ≤ v.2.1) (h4 : v.2.1 ≤ 255)
    (h5 : 0 ≤ v.2.2) (h6 : v.2.2 ≤ 255) :
    apply_floyd_steinberg_dithering w h (List.replicate n v) = List.replicate n v := by
  unfold apply_floyd_steinberg_dithering
  refine foldl_preserve_mem (fun b => b = List.replicate n v) _ (List.range h) ?_ _ rfl
  intro b y hy hb
  subst hb
  refine foldl_preserve_mem (fun b2 => b2 = List.replicate n v) _ (List.range w) ?_ _ rfl
  intro b2 x hx hb2
  subst hb2
  exact fsStep_const w h n v vz y x (List.mem_range.mp hx) (List.mem_range.mp hy) hwh
    hfind hcast h1 h2 h3 h4 h5 h6

theorem intTriple_castTriple (p : Z3) : intTriple (castTriple p) = p := by
  simp [intTriple, castTriple, Int.floor_intCast]

theorem ditherImage_const (w h n : ℕ) (vz : Z3) (hwh : w * h ≤ n)
    (hfind : C64_PALETTE.getD (find_nearest_color (castTriple vz) true) (0, 0, 0) = vz)
    (h1 : 0 ≤ (castTriple vz).1) (h2 : (castTriple vz).1 ≤ 255)
    (h3 : 0 ≤ (castTriple vz).2.1) (h4 : (castTriple vz).2.1 ≤ 255)
    (h5 : 0 ≤ (castTriple vz).2.2) (h6 : (castTriple vz).2.2 ≤ 255) :
    ditherImage w h (List.replicate n vz) = List.replicate n vz := by
  unfold ditherImage
  rw [List.map_replicate,
    dither_const w h n (castTriple vz) vz hwh hfind rfl h1 h2 h3 h4 h5 h6,
    List.map_replicate, intTriple_castTriple]

theorem convert_const (n : ℕ) (k : ℕ) (hk : k < 16) :
    convert_to_c64_direct (List.replicate n (C64_PALETTE.getD k (0, 0, 0))) =
      List.replicate n (C64_PALETTE.getD k (0, 0, 0)) := by
  unfold convert_to_c64_direct
  rw [List.map_replicate,
    show castTriple (C64_PALETTE.getD k (0, 0, 0)) = palR3 k from rfl, find_pal k hk]

theorem cellByte_const (vz : Z3) (cx cy py : ℕ) (hcx : cx < 40) (hcy : cy < 25)
    (hpy : py < 8) :
    cellByte 320 200 (List.replicate 64000 vz) 128 false cx cy py =
      if pixelOn vz 128 false then 255 else 0 := by
  unfold cellByte
  by_cases hOn : pixelOn vz 128 false
  · rw [if_pos hOn]
    rw [foldl_congr_mem _ (fun bv i => bv ||| (128 >>> i)) (List.range 8) ?_ 0]
    · decide
    · intro bv i hi
      have hi8 : i < 8 := List.mem_range.mp hi
      have hcond : cx * 8 + i < 320 ∧ cy * 8 + py < 200 ∧
          pixelOn (getPix 320 (List.replicate 64000 vz) (cx * 8 + i) (cy * 8 + py)) 128 false := by
        refine ⟨by omega, by omega, ?_⟩
        unfold getPix
        rw [getD_replicate_lt _ _ _ _ (by omega)]
        exact hOn
      rw [if_pos hcond]
  · rw [if_neg hOn]
    rw [foldl_congr_mem _ (fun bv i => bv) (List.range 8) ?_ 0]
    · decide
    · intro bv i hi
      have hi8 : i < 8 := List.mem_range.mp hi
      rw [if_neg]
      rintro ⟨-, -, h3⟩
      unfold getPix at h3
      rw [getD_replicate_lt _ _ _ _ (by omega)] at h3
      exact hOn h3

theorem cellBytes_const (vz : Z3) (cx cy : ℕ) (hcx : cx < 40) (hcy : cy < 25) :
    cellBytes 320 200 (List.replicate 64000 vz) 128 false cx cy =
      List.replicate 8 (if pixelOn vz 128 false then 255 else 0) := by
  unfold cellBytes
  rw [List.map_congr_left
    (fun py hpy => cellByte_const vz cx cy py hcx hcy (List.mem_range.mp hpy))]
  simp

theorem bump_single (k c : ℕ) : bumpCount [(k, c)] k = [(k, c + 1)] := by
  unfold bumpCount
  rw [if_pos rfl]

theorem foldl_bump_single (k : ℕ) : ∀ (l : List ℕ) (c : ℕ),
    l.foldl (fun a _ => bumpCount a k) [(k, c)] = [(k, c + l.length)] := by
  intro l
  induction l with
  | nil => simp
  | cons i is ih =>
      intro c
      rw [List.foldl_cons, bump_single, ih, List.length_cons]
      congr 2
      omega

theorem foldl_bump_from_nil (k : ℕ) (l : List ℕ) (hl : l ≠ []) :
    l.foldl (fun a _ => bumpCount a k) [] = [(k, l.length)] := by
  cases l with
  | nil => exact absurd rfl hl
  | cons i is =>
      rw [List.foldl_cons, show bumpCount [] k = [(k, 1)] from rfl,
        foldl_bump_single k is 1, List.length_cons]
      congr 2
      omega

theorem foldl_bump_outer (k : ℕ) : ∀ (l2 : List ℕ) (c : ℕ),
    l2.foldl (fun acc _ => (List.range 8).foldl (fun acc2 _ => bumpCount acc2 k) acc)
      [(k, c)] = [(k, c + 8 * l2.length)] := by
  intro l2
  induction l2 with
  | nil => simp
  | cons i is ih =>
      intro c
      rw [List.foldl_cons, foldl_bump_single k (List.range 8) c, List.length_range, ih,
        List.length_cons]
      congr 2
      ring

theorem foldl_bump_nested (k : ℕ) (l2 : List ℕ) (hl2 : l2 ≠ []) :
    l2.foldl (fun acc _ => (List.range 8).foldl (fun acc2 _ => bumpCount acc2 k) acc) []
      = [(k, 8 * l2.length)] := by
  cases l2 with
  | nil => exact absurd rfl hl2
  | cons i is =>
      rw [List.foldl_cons, foldl_bump_from_nil k (List.range 8) (by simp), List.length_range,
        foldl_bump_outer k is 8, List.length_cons]
      congr 2
      ring

theorem cellColors_const (vz : Z3) (k0 : ℕ) (cx cy : ℕ) (hcx : cx < 40) (hcy : cy < 25)
    (hk0 : find_nearest_color (castTriple vz) false = k0) :
    cellColors 320 200 (List.replicate 64000 vz) cx cy = [(k0, 64)] := by
  unfold cellColors
  rw [foldl_congr_mem _
    (fun acc _ => (List.range 8).foldl (fun acc2 _ => bumpCount acc2 k0) acc)
    (List.range 8) ?_ []]
  · rw [foldl_bump_nested k0 (List.range 8) (by simp), List.length_range]
  · intro acc py hpy
    have hpy8 : py < 8 := List.mem_range.mp hpy
    show _ = (List.range 8).foldl (fun acc2 _ => bumpCount acc2 k0) acc
    rw [foldl_congr_mem _ (fun acc2 _ => bumpCount acc2 k0) (List.range 8) ?_ acc]
    intro acc2 i hi
    have hi8 : i < 8 := List.mem_range.mp hi
    show (if cx * 8 + i < 320 ∧ cy * 8 + py < 200 then
        bumpCount acc2 (find_nearest_color
          (castTriple (getPix 320 (List.replicate 64000 vz) (cx * 8 + i) (cy * 8 + py))) false)
      else acc2) = bumpCount acc2 k0
    rw [if_pos ⟨by omega, by omega⟩]
    unfold getPix
    rw [getD_replicate_lt _ _ _ _ (by omega), hk0]

theorem rgbDistTo_nonneg (c : R3) (j : ℕ) : 0 ≤ rgbDistTo c j := by
  unfold rgbDistTo
  dsimp only
  nlinarith [mul_self_nonneg (c.1 - (castTriple (C64_PALETTE.getD j (0, 0, 0))).1),
    mul_self_nonneg (c.2.1 - (castTriple (C64_PALETTE.getD j (0, 0, 0))).2.1),
    mul_self_nonneg (c.2.2 - (castTriple (C64_PALETTE.getD j (0, 0, 0))).2.2)]

theorem find_rgb_black : find_nearest_color (castTriple ((0:ℤ), (0:ℤ), (0:ℤ))) false = 0 := by
  unfold find_nearest_color
  rw [if_neg (by simp)]
  refine selRange16_eq_of_zero _ 0 (by norm_num) ?_ (fun j => rgbDistTo_nonneg _ j)
    (fun j hj => absurd hj (Nat.not_lt_zero j))
  unfold rgbDistTo
  norm_num [castTriple, C64_PALETTE]

theorem find_rgb_white :
    find_nearest_color (castTriple ((255:ℤ), (255:ℤ), (255:ℤ))) false = 1 := by
  unfold find_nearest_color
  rw [if_neg (by simp)]
  refine selRange16_eq_of_zero _ 1 (by norm_num) ?_ (fun j => rgbDistTo_nonneg _ j) ?_
  · unfold rgbDistTo
    norm_num [castTriple, C64_PALETTE]
  · intro j hj
    interval_cases j
    unfold rgbDistTo
    norm_num [castTriple, C64_PALETTE]

theorem dominant_single (k c : ℕ) : dominant_color [(k, c)] = k := rfl

theorem processCell_const (img : List Z3) (t : ℕ) (inv : Bool) (P : List ℕ) (c0 : ℕ)
    (cy cx : ℕ)
    (hP : cellBytes 320 200 img t inv cx cy = P)
    (hC : dominant_color (cellColors 320 200 img cx cy) = c0) :
    ∀ n : ℕ,
      processCell 320 200 img t inv
        (if n = 0 then ⟨[], [], 0, [], []⟩
         else ⟨[(P, 0)], [P], 1, List.replicate n 0, List.replicate n c0⟩) cy cx
      = ⟨[(P, 0)], [P], 1, List.replicate (n + 1) 0, List.replicate (n + 1) c0⟩ := by
  intro n
  rcases Nat.eq_zero_or_pos n with rfl | hn
  · rw [if_pos rfl]
    unfold processCell internPattern
    dsimp only
    rw [hP, hC]
    simp [lookupPat]
  · rw [if_neg (by omega)]
    unfold processCell internPattern
    dsimp only
    rw [hP, hC]
    simp [lookupPat, List.replicate_succ']

theorem foldcx_const (img : List Z3) (t : ℕ) (inv : Bool) (P : List ℕ) (c0 : ℕ) (cy : ℕ)
    (hP : ∀ cx, cx < 40 → cellBytes 320 200 img t inv cx cy = P)
    (hC : ∀ cx, cx < 40 → dominant_color (cellColors 320 200 img cx cy) = c0) :
    ∀ l : List ℕ, (∀ cx ∈ l, cx < 40) → ∀ n : ℕ,
      l.foldl (fun s2 cx => processCell 320 200 img t inv s2 cy cx)
        (if n = 0 then ⟨[], [], 0, [], []⟩
         else ⟨[(P, 0)], [P], 1, List.replicate n 0, List.replicate n c0⟩)
      = (if n + l.length = 0 then ⟨[], [], 0, [], []⟩
         else ⟨[(P, 0)], [P], 1, List.replicate (n + l.length) 0,
               List.replicate (n + l.length) c0⟩) := by
  intro l
  induction l with
  | nil => intro _ n; simp
  | cons cx cxs ih =>
      intro hmem n
      rw [List.foldl_cons,
        processCell_const img t inv P c0 cy cx (hP cx (hmem cx (by simp)))
          (hC cx (hmem cx (by simp))) n]
      have hrw : (⟨[(P, 0)], [P], 1, List.replicate (n + 1) 0,
            List.replicate (n + 1) c0⟩ : GenState)
          = (if n + 1 = 0 then ⟨[], [], 0, [], []⟩
             else ⟨[(P, 0)], [P], 1, List.replicate (n + 1) 0,
                   List.replicate (n + 1) c0⟩) := by
        rw [if_neg (by omega)]
      rw [hrw, ih (fun c hc => hmem c (List.mem_cons_of_mem _ hc)) (n + 1)]
      simp only [List.length_cons]
      rw [show n + 1 + cxs.length = n + (cxs.length + 1) from by omega]

theorem foldcy_const (img : List Z3) (t : ℕ) (inv : Bool) (P : List ℕ) (c0 : ℕ)
    (hP : ∀ cy, cy < 25 → ∀ cx, cx < 40 → cellBytes 320 200 img t inv cx cy = P)
    (hC : ∀ cy, cy < 25 → ∀ cx, cx < 40 →
      dominant_color (cellColors 320 200 img cx cy) = c0) :
    ∀ l2 : List ℕ, (∀ cy ∈ l2, cy < 25) → ∀ n : ℕ,
      l2.foldl
        (fun s cy =>
          (List.range 40).foldl (fun s2 cx => processCell 320 200 img t inv s2 cy cx) s)
        (if n = 0 then ⟨[], [], 0, [], []⟩
         else ⟨[(P, 0)], [P], 1, List.replicate n 0, List.replicate n c0⟩)
      = (if n + 40 * l2.length = 0 then ⟨[], [], 0, [], []⟩
         else ⟨[(P, 0)], [P], 1, List.replicate (n + 40 * l2.length) 0,
               List.replicate (n + 40 * l2.length) c0⟩) := by
  intro l2
  induction l2 with
  | nil => intro _ n; simp
  | cons cy cys ih =>
      intro hmem n
      rw [List.foldl_cons,
        foldcx_const img t inv P c0 cy (hP cy (hmem cy (by simp)))
          (hC cy (hmem cy (by simp))) (List.range 40) (fun c hc => List.mem_range.mp hc) n,
        List.length_range,
        ih (fun c hc => hmem c (List.mem_cons_of_mem _ hc)) (n + 40)]
      simp only [List.length_cons]
      rw [show n + 40 + 40 * cys.length = n + 40 * (cys.length + 1) from by ring]

theorem generate_const_eval (img : List Z3) (t : ℕ) (inv : Bool) (P : List ℕ) (c0 : ℕ)
    (hP : ∀ cy, cy < 25 → ∀ cx, cx < 40 → cellBytes 320 200 img t inv cx cy = P)
    (hC : ∀ cy, cy < 25 → ∀ cx, cx < 40 →
      dominant_color (cellColors 320 200 img cx cy) = c0) :
    (List.range 25).foldl
      (fun s cy =>
        (List.range 40).foldl (fun s2 cx => processCell 320 200 img t inv s2 cy cx) s)
      ⟨[], [], 0, [], []⟩
    = ⟨[(P, 0)], [P], 1, List.replicate 1000 0, List.replicate 1000 c0⟩ := by
  have h := foldcy_const img t inv P c0 hP hC (List.range 25)
    (fun c hc => List.mem_range.mp hc) 0
  rw [if_pos rfl] at h
  rw [h, List.length_range]
  norm_num

theorem pixelOn_black : pixelOn ((0:ℤ), (0:ℤ), (0:ℤ)) 128 false := by
  norm_num [pixelOn, luminance]

theorem pixelOn_white_not : ¬ pixelOn ((255:ℤ), (255:ℤ), (255:ℤ)) 128 false := by
  norm_num [pixelOn, luminance]

theorem generate_black_eval (d : Bool) :
    generate_c64_data 320 200 blackImg d 128 false =
      (List.replicate 1000 0, [List.replicate 8 255], List.replicate 1000 0, blackImg) := by
  have hbl : blackImg = List.replicate 64000 ((0:ℤ), (0:ℤ), (0:ℤ)) := rfl
  have hfindlab : C64_PALETTE.getD
      (find_nearest_color (castTriple ((0:ℤ), (0:ℤ), (0:ℤ))) true) (0, 0, 0)
      = ((0:ℤ), (0:ℤ), (0:ℤ)) := by
    rw [show castTriple ((0:ℤ), (0:ℤ), (0:ℤ)) = palR3 0 from rfl, find_pal 0 (by norm_num)]
    rfl
  have himg : (if d = true then ditherImage 320 200 blackImg
      else convert_to_c64_direct blackImg) = blackImg := by
    cases d
    · rw [if_neg (by simp)]
      rw [show blackImg = List.replicate 64000 (C64_PALETTE.getD 0 (0, 0, 0)) from rfl]
      exact convert_const 64000 0 (by norm_num)
    · rw [if_pos rfl, hbl]
      refine ditherImage_const 320 200 64000 _ (by norm_num) hfindlab ?_ ?_ ?_ ?_ ?_ ?_ <;>
        norm_num [castTriple]
  have hP : ∀ cy, cy < 25 → ∀ cx, cx < 40 →
      cellBytes 320 200 blackImg 128 false cx cy = List.replicate 8 255 := by
    intro cy hcy cx hcx
    rw [hbl, cellBytes_const _ cx cy hcx hcy, if_pos pixelOn_black]
  have hC : ∀ cy, cy < 25 → ∀ cx, cx < 40 →
      dominant_color (cellColors 320 200 blackImg cx cy) = 0 := by
    intro cy hcy cx hcx
    rw [hbl, cellColors_const _ 0 cx cy hcx hcy find_rgb_black, dominant_single]
  unfold generate_c64_data
  dsimp only
  rw [himg, generate_const_eval blackImg 128 false (List.replicate 8 255) 0 hP hC]

theorem generate_white_eval (d : Bool) :
    generate_c64_data 320 200 whiteImg d 128 false =
      (List.replicate 1000 0, [List.replicate 8 0], List.replicate 1000 1, whiteImg) := by
  have hwh : whiteImg = List.replicate 64000 ((255:ℤ), (255:ℤ), (255:ℤ)) := rfl
  have hfindlab : C64_PALETTE.getD
      (find_nearest_color (castTriple ((255:ℤ), (255:ℤ), (255:ℤ))) true) (0, 0, 0)
      = ((255:ℤ), (255:ℤ), (255:ℤ)) := by
    rw [show castTriple ((255:ℤ), (255:ℤ), (255:ℤ)) = palR3 1 from rfl,
      find_pal 1 (by norm_num)]
    rfl
  have himg : (if d = true then ditherImage 320 200 whiteImg
      else convert_to_c64_direct whiteImg) = whiteImg := by
    cases d
    · rw [if_neg (by simp)]
      rw [show whiteImg = List.replicate 64000 (C64_PALETTE.getD 1 (0, 0, 0)) from rfl]
      exact convert_const 64000 1 (by norm_num)
    · rw [if_pos rfl, hwh]
      refine ditherImage_const 320 200 64000 _ (by norm_num) hfindlab ?_ ?_ ?_ ?_ ?_ ?_ <;>
        norm_num [castTriple]
  have hP : ∀ cy, cy < 25 → ∀ cx, cx < 40 →
      cellBytes 320 200 whiteImg 128 false cx cy = List.replicate 8 0 := by
    intro cy hcy cx hcx
    rw [hwh, cellBytes_const _ cx cy hcx hcy, if_neg pixelOn_white_not]
  have hC : ∀ cy, cy < 25 → ∀ cx, cx < 40 →
      dominant_color (cellColors 320 200 whiteImg cx cy) = 1 := by
    intro cy hcy cx hcx
    rw [hwh, cellColors_const _ 1 cx cy hcx hcy find_rgb_white, dominant_single]
  unfold generate_c64_data
  dsimp only
  rw [himg, generate_const_eval whiteImg 128 false (List.replicate 8 0) 1 hP hC]

/-! ## Claims C3 and C9: solid black and solid white end-to-end -/

/-- Claim C3 (amended).  For a solid black 320×200 input with the default
threshold 128 and no invert (for either dithering setting): every tile's
bitmap is all-ONES (dark pixels are foreground, so each row byte is 255),
the pattern table holds exactly one unique pattern — the all-ones pattern —
the 1000-entry screen map is all zeros, and the 1000-entry color map is all
zeros, and the quantized image is still solid black. -/
theorem claim_C3_black_image (d : Bool) :
    generate_c64_data 320 200 blackImg d 128 false =
      (List.replicate 1000 0, [List.replicate 8 255], List.replicate 1000 0, blackImg) :=
  generate_black_eval d

/-- Counterexample to C3 as stated: the claim says the pattern table of the
solid black image holds the all-zero pattern (all tiles' bitmaps being
all-zero-bits); the pipeline actually produces the all-ones pattern, because
with the default dark-as-foreground sense every black pixel sets its bit. -/
theorem claim_C3_counterexample :
    (generate_c64_data 320 200 blackImg true 128 false).2.1 ≠ [List.replicate 8 0] := by
  rw [generate_black_eval true]
  decide

/-- Claim C9 (amended).  For a solid white 320×200 input with the default
threshold and dark-as-foreground sense (for either dithering setting):
every tile's bitmap is all-zero-bits, the pattern table holds exactly one
unique (all-zero) pattern, and the screen map is all zeros — but the color
map is all ONES (white), not all zeros: the dominant-color pass counts
every pixel's nearest palette index and white quantizes to palette index 1. -/
theorem claim_C9_white_image (d : Bool) :
    generate_c64_data 320 200 whiteImg d 128 false =
      (List.replicate 1000 0, [List.replicate 8 0], List.replicate 1000 1, whiteImg) :=
  generate_white_eval d

/-- Counterexample to C9 as stated: the claim says the solid white image's
color map is all zeros; it is all ones. -/
theorem claim_C9_counterexample :
    (generate_c64_data 320 200 whiteImg true 128 false).2.2.1 ≠ List.replicate 1000 0 := by
  rw [generate_white_eval true]
  intro h
  have h2 : List.replicate 1000 (1:ℕ) = List.replicate 1000 (0:ℕ) := h
  have h0 : (List.replicate 1000 (1:ℕ)).getD 0 0 = (List.replicate 1000 (0:ℕ)).getD 0 0 := by
    rw [h2]
  rw [getD_replicate_lt _ _ _ _ (by norm_num), getD_replicate_lt _ _ _ _ (by norm_num)] at h0
  exact one_ne_zero h0
